import Mathlib

/-!
Verification of the snarl web framework's request-dispatch core against its
specification.  The definitions below are a shallow embedding of the
TypeScript sources: the route trie (src/router.ts), the dispatch loop
(createRouter().fetch), the middleware composer (src/middleware.ts), the
static-file middleware with its Range parser, and the rate limiter.
Handlers are modelled as pure functions returning `Except` (a thrown JS
value becomes `.error`); JavaScript strings are Lean `String`s and the
segment splitting/joining done with `String.prototype.split`/`join` is
implemented character-by-character with JS semantics.
-/

namespace Snarl

/-- Trie node kinds, from `const enum NodeType` in router.ts
(STATIC = 0, PARAM = 1, WILDCARD = 2; the numeric value is the sort rank). -/
inductive NodeType : Type where
  | STATIC : NodeType
  | PARAM : NodeType
  | WILDCARD : NodeType
deriving DecidableEq, Repr

/-- The numeric value of a `NodeType`, used by `children.sort((a, b) => a.type - b.type)`. -/
def NodeType.rank : NodeType → Nat
  | .STATIC => 0
  | .PARAM => 1
  | .WILDCARD => 2

/-- One parsed pattern segment, as produced by `parsePattern` in router.ts:
for STATIC segments `segment` is the literal text, for PARAM it is the
parameter name (with the `:`/`?` stripped), for WILDCARD it is `"*"`. -/
structure PatSeg : Type where
  ty : NodeType
  segment : String
  optional : Bool
deriving DecidableEq, Repr

/-- A trie node (interface `TrieNode` in router.ts).  `handler` stands for the
`handler`/`route` pair, which the source always sets and tests together; the
payload type `α` is a handler identifier in the routing theorems and a real
handler function in the dispatch model.  A missing `paramName` (static nodes)
is modelled as `""`. -/
inductive TrieNode (α : Type) : Type where
  | mk (ty : NodeType) (segment : String) (paramName : String) (optional : Bool)
      (children : List (TrieNode α)) (handler : Option α) : TrieNode α

def TrieNode.ty {α : Type} : TrieNode α → NodeType
  | .mk t _ _ _ _ _ => t

def TrieNode.segment {α : Type} : TrieNode α → String
  | .mk _ s _ _ _ _ => s

def TrieNode.paramName {α : Type} : TrieNode α → String
  | .mk _ _ p _ _ _ => p

def TrieNode.optional {α : Type} : TrieNode α → Bool
  | .mk _ _ _ o _ _ => o

def TrieNode.children {α : Type} : TrieNode α → List (TrieNode α)
  | .mk _ _ _ _ cs _ => cs

def TrieNode.handler {α : Type} : TrieNode α → Option α
  | .mk _ _ _ _ _ h => h

/-- `createTrieRoot()` from router.ts. -/
def createTrieRoot {α : Type} : TrieNode α :=
  .mk .STATIC "" "" false [] none

/-! ### Character-level string helpers with JavaScript semantics -/

/-- JS `String.prototype.split("/")` on a character list: always returns at
least one (possibly empty) piece, so `"".split("/")` is `[""]`. -/
def splitOnSlash : List Char → List (List Char)
  | [] => [[]]
  | c :: rest =>
    match splitOnSlash rest with
    | [] => [[]]
    | s :: ss => if c = '/' then [] :: s :: ss else (c :: s) :: ss

/-- The regex replacement `.replace(/^\/+|\/+$/g, "")`: strip all leading and
trailing slashes. -/
def stripSlashes (cs : List Char) : List Char :=
  (((cs.dropWhile (· = '/')).reverse).dropWhile (· = '/')).reverse

/-- Split a pathname into segments the way `matchRoute` does:
`pathname.replace(/^\/+|\/+$/g, "").split("/")`. -/
def pathSegs (s : String) : List String :=
  (splitOnSlash (stripSlashes s.data)).map String.mk

/-- JS `array.join("/")` on strings. -/
def joinSlash : List String → String
  | [] => ""
  | [s] => s
  | s :: rest => s ++ "/" ++ joinSlash rest

/-- The `value.indexOf("%") !== -1` test of router.ts. -/
def hasPercent (s : String) : Bool := s.data.contains '%'

/-! ### parsePattern (router.ts lines 123-145) -/

/-- The per-part loop body of `parsePattern`: `"*"` becomes a WILDCARD segment
and stops the loop (`break`), a leading `:` makes a PARAM segment whose
trailing `?` marks it optional and is stripped from the stored name, and
anything else is STATIC. -/
def parseParts : List (List Char) → List PatSeg
  | [] => []
  | part :: rest =>
    if part = ['*'] then
      [⟨.WILDCARD, "*", false⟩]
    else if part.head? = some ':' then
      let opt := part.getLast? = some '?'
      let name := if opt then String.mk ((part.drop 1).dropLast) else String.mk (part.drop 1)
      ⟨.PARAM, name, opt⟩ :: parseParts rest
    else
      ⟨.STATIC, String.mk part, false⟩ :: parseParts rest

/-- `parsePattern` from router.ts: strip surrounding slashes, return `[]` for
the empty path, otherwise split on `/` and classify each part. -/
def parsePattern (pattern : String) : List PatSeg :=
  let path := stripSlashes pattern.data
  if path = [] then [] else parseParts (splitOnSlash path)

/-! ### insertRoute (router.ts lines 147-172) -/

/-- The child-lookup predicate of `insertRoute`:
`c.type === type && (type === STATIC ? c.segment === segment : c.paramName === segment)`. -/
def segMatches {α : Type} (sg : PatSeg) (c : TrieNode α) : Bool :=
  c.ty = sg.ty && (if sg.ty = .STATIC then c.segment = sg.segment else c.paramName = sg.segment)

/-- The fresh node `insertRoute` creates when no matching child exists. -/
def newNode {α : Type} (sg : PatSeg) : TrieNode α :=
  .mk sg.ty (if sg.ty = .STATIC then sg.segment else "")
    (if sg.ty = .STATIC then "" else sg.segment) sg.optional [] none

/-- Stable insertion of a node into a list already ordered by `NodeType.rank`
(one step of the stable `Array.prototype.sort` by `a.type - b.type`). -/
def insSorted {α : Type} (c : TrieNode α) : List (TrieNode α) → List (TrieNode α)
  | [] => [c]
  | d :: ds => if d.ty.rank < c.ty.rank then d :: insSorted c ds else c :: d :: ds

/-- The stable sort `children.sort((a, b) => a.type - b.type)` of router.ts. -/
def sortByType {α : Type} : List (TrieNode α) → List (TrieNode α)
  | [] => []
  | c :: cs => insSorted c (sortByType cs)

/-- Replace the first list element satisfying `p` by its `f`-image. -/
def replaceFirst {β : Type} (p : β → Bool) (f : β → β) : List β → List β
  | [] => []
  | x :: xs => if p x then f x :: xs else x :: replaceFirst p f xs

/-- `insertRoute`'s trie descent (router.ts lines 149-171): at each segment
descend into the first matching child, or create a fresh child, append it and
re-sort the children by type (the stable sort keeps same-type order);
attach the handler at the final node. -/
def insertSegs {α : Type} (t : TrieNode α) : List PatSeg → α → TrieNode α
  | [], hid =>
    match t with
    | .mk ty sg pn opt cs _ => .mk ty sg pn opt cs (some hid)
  | psg :: rest, hid =>
    match t with
    | .mk ty sg pn opt cs h =>
      .mk ty sg pn opt
        (if cs.any (segMatches psg) then
          replaceFirst (segMatches psg) (fun c => insertSegs c rest hid) cs
        else sortByType (cs ++ [insertSegs (newNode psg) rest hid])) h

/-- `insertRoute(root, pattern, handler, route)` from router.ts. -/
def insertRoute {α : Type} (root : TrieNode α) (pattern : String) (hid : α) : TrieNode α :=
  insertSegs root (parsePattern pattern) hid

/-- A trie built by registering a list of `(pattern, handler)` routes in order
on a fresh root, the way `createRouter().on` feeds `insertRoute`. -/
def buildTrie {α : Type} (regs : List (String × α)) : TrieNode α :=
  regs.foldl (fun t r => insertRoute t r.1 r.2) createTrieRoot

/-! ### matchRoute (router.ts lines 174-265) -/

/-- Extracted path parameters: a JS object as an insertion-ordered
string-to-string map. -/
abbrev Params : Type := List (String × String)

/-- JS object spread update `{...params, [key]: value}`: overwriting an
existing key keeps its position, a new key is appended last. -/
def setParam (ps : Params) (k v : String) : Params :=
  if ps.any (fun kv => kv.1 = k) then
    ps.map (fun kv => if kv.1 = k then (k, v) else kv)
  else ps ++ [(k, v)]

/-- The loop of `matchStatic`: take the first STATIC child whose literal
segment equals the current one and return its recursive result. -/
def findStaticChild {α : Type} (cs : List (TrieNode α)) (s : String) : Option (TrieNode α) :=
  cs.find? (fun c => c.ty = NodeType.STATIC && c.segment = s)

/-- `matchStatic` from router.ts: the allocation-free fast path descending
only STATIC children (the first one whose literal matches); yields the
terminal handler, if any. -/
def matchStatic {α : Type} (t : TrieNode α) : List String → Option α
  | [] => t.handler
  | s :: rest =>
    match findStaticChild t.children s with
    | some c => matchStatic c rest
    | none => none

/-- The `for (const child of node.children)` scan in `search`'s
`index >= segments.length` branch: return the first child that is optional
and terminal. -/
def optTerminal {α : Type} : List (TrieNode α) → Option α
  | [] => none
  | c :: cs =>
    match c.optional, c.handler with
    | true, some h => some h
    | _, _ => optTerminal cs

/-- The recursive `search` of `matchRoute` (router.ts lines 217-257).  The
second component of the result models the closed-over `requiresDecoding`
flag: it is true when any PARAM branch was attempted on a segment containing
a `%` before the search returned.  The `for (const child of node.children)`
loop — try each child in order, return the first success, a WILDCARD child
always ends the loop — is the `foldr` below, whose continuation `k` stands
for "go on with the remaining children": STATIC children compare literally,
PARAM children bind the segment (an optional one also gets a skip branch
restarting from the parent at the next index), WILDCARD returns its terminal
result on the joined remaining segments without consulting `k`. -/
def searchT {α : Type} (t : TrieNode α) : List String → Params → Option (α × Params) × Bool
  | [], params =>
    match t.handler with
    | some h => (some (h, params), false)
    | none =>
      match optTerminal t.children with
      | some h => (some (h, params), false)
      | none => (none, false)
  | s :: rest, params =>
    t.children.foldr
      (fun c k =>
        match c.ty with
        | .STATIC =>
          if c.segment = s then
            match searchT c rest params with
            | (some r, f) => (some r, f)
            | (none, f) => (k.1, f || k.2)
          else k
        | .PARAM =>
          let f0 := hasPercent s
          match searchT c rest (setParam params c.paramName s) with
          | (some r, f) => (some r, f0 || f)
          | (none, f) =>
            if c.optional then
              match searchT t rest params with
              | (some r, f2) => (some r, f0 || f || f2)
              | (none, f2) => (k.1, f0 || f || f2 || k.2)
            else (k.1, f0 || f || k.2)
        | .WILDCARD =>
          let w := joinSlash (s :: rest)
          let np := setParam params (if c.paramName = "" then "*" else c.paramName) w
          ((c.handler.map (fun h => (h, np))), false))
      (none, false)

/-- `decodeParams` (router.ts lines 191-202), applied when the search set the
decoding flag: values containing `%` go through `decodeURIComponent`, a
decoding failure (the JS `catch`) leaves the raw value.  `decodeURIComponent`
itself is a JS builtin, taken as the abstract argument `dec` (`none` models a
thrown `URIError`). -/
def decodeParamsM (dec : String → Option String) (ps : Params) : Params :=
  ps.map (fun kv => if hasPercent kv.2 then (kv.1, ((dec kv.2).getD kv.2)) else kv)

/-- `matchRoute(root, pathname)` from router.ts: the `"/"`/`""` root case,
then the static fast path, then the backtracking search followed by
conditional percent-decoding of the extracted parameters. -/
def matchRoute {α : Type} (dec : String → Option String) (root : TrieNode α)
    (pathname : String) : Option (α × Params) :=
  if pathname = "/" ∨ pathname = "" then
    root.handler.map (fun h => (h, ([] : Params)))
  else
    match matchStatic root (pathSegs pathname) with
    | some h => some (h, [])
    | none =>
      match searchT root (pathSegs pathname) [] with
      | (some (h, ps), f) => some (h, if f then decodeParamsM dec ps else ps)
      | (none, _) => none

/-! ### HTTP data model (Request/Response/Headers/JSON)

`Headers` are modelled as a list of name/value pairs; `set`/`get` are
case-insensitive as in the WHATWG Headers class.  Response bodies keep their
structure (`JSON.stringify` of an object is modelled by keeping the object),
and a `null` body is `Body.none` — note that `new Response("")` has a
non-null (empty) body stream, so only `Body.none` is falsy for the
`response?.body` check in `fetch`. -/

/-- ASCII lowercasing for case-insensitive header names. -/
def lowerStr (s : String) : String := String.mk (s.data.map Char.toLower)

/-- `Headers.prototype.set`: replace the value of an existing entry in place
(header names compare case-insensitively; the lists built here never hold
duplicate names), else append the pair. -/
def hdrSet : List (String × String) → String → String → List (String × String)
  | [], k, v => [(k, v)]
  | kv :: hs, k, v =>
    if lowerStr kv.1 = lowerStr k then (kv.1, v) :: hs else kv :: hdrSet hs k v

/-- `Headers.prototype.append`. -/
def hdrAppend (hs : List (String × String)) (k v : String) : List (String × String) :=
  hs ++ [(k, v)]

/-- `Headers.prototype.get` (first matching entry; the claims never build
duplicate names, whose values the real class would comma-join). -/
def hdrGet (hs : List (String × String)) (k : String) : Option String :=
  (hs.find? (fun kv => lowerStr kv.1 = lowerStr k)).map (fun kv => kv.2)

/-- A JSON value, for response payloads built with `JSON.stringify`. -/
inductive Json : Type where
  | str (s : String) : Json
  | num (n : Nat) : Json
  | obj (fields : List (String × Json)) : Json

/-- A response body: `none` is the JS `null` body, `text` a string body,
`json` a `JSON.stringify`-produced body, `bytes` a file body. -/
inductive Body : Type where
  | none : Body
  | text (s : String) : Body
  | json (j : Json) : Body
  | bytes (bs : List Nat) : Body

/-- The supported HTTP methods (`httpMethods` in utils.ts). -/
inductive Method : Type where
  | GET | POST | PUT | PATCH | DELETE | HEAD | OPTIONS
deriving DecidableEq

/-- An incoming request: the dispatch core reads its (already uppercased)
method, its URL pathname and its headers. -/
structure Request : Type where
  method : Method
  pathname : String
  headers : List (String × String)

/-- `request.headers.get(name)` (case-insensitive). -/
def reqHeaderGet (req : Request) (k : String) : Option String :=
  hdrGet req.headers k

/-- A `Response` value: status, statusText (defaults to `""` when built by
the framework), headers and body. -/
structure Response : Type where
  status : Nat
  statusText : String
  headers : List (String × String)
  body : Body

/-- An `HttpError` (utils.ts lines 59-73): status, message, optional extra
headers (`[]` when the constructor got none). -/
structure HttpErrorS : Type where
  status : Nat
  message : String
  headers : List (String × String)

/-- `TooManyRequestsError` (utils.ts lines 125-129): status 429 and, when a
retry-after value is given, a `Retry-After` header. -/
def TooManyRequestsErrorM (message : String) (retryAfter : Option String) : HttpErrorS :=
  ⟨429, message, match retryAfter with | some v => [("Retry-After", v)] | none => []⟩

/-- A thrown JS value as seen by `fetch`'s catch blocks: either an
`instanceof HttpError` or anything else (carrying its `.message`). -/
inductive Thrown : Type where
  | http (e : HttpErrorS) : Thrown
  | other (message : String) : Thrown

/-- `error.message` of a thrown value. -/
def Thrown.message : Thrown → String
  | .http e => e.message
  | .other m => m

/-! ### Context (middleware.ts `createContext`)

The context is modelled at its creation-time state: the outgoing-header
accumulator (`ctx.headers`) and the cookie jar's pending `Set-Cookie` list
start empty and no claim involves a handler mutating them, so they are plain
immutable fields here. -/

structure Ctx : Type where
  request : Request
  params : Params
  requestId : String
  respHeaders : List (String × String)
  pendingCookies : List String

/-- `createContext(request, info, params, requestId)`: the `requestId ||
crypto.randomUUID()` fallback is dead in dispatch (the router always passes a
nonempty counter id), so the id is stored as given. -/
def createContextM (req : Request) (params : Params) (requestId : String) : Ctx :=
  ⟨req, params, requestId, [], []⟩

/-- The `response(data, contentType, cookies, arbitraryHeaders, init)` helper
of middleware.ts: headers start from the init headers, the content type is
set, the accumulator entries override, pending cookies are appended. -/
def respondWith (data : Body) (contentType : Option String) (ctx : Ctx) (status : Nat)
    (initHeaders : List (String × String)) : Response :=
  let hs := initHeaders.foldl (fun a kv => hdrSet a kv.1 kv.2) []
  let hs := match contentType with
    | some ct => hdrSet hs "Content-Type" ct
    | none => hs
  let hs := ctx.respHeaders.foldl (fun a kv => hdrSet a kv.1 kv.2) hs
  let hs := ctx.pendingCookies.foldl (fun a c => hdrAppend a "Set-Cookie" c) hs
  ⟨status, "", hs, data⟩

/-- `ctx.json(data, init)`. -/
def ctxJson (ctx : Ctx) (data : Json) (status : Nat)
    (initHeaders : List (String × String)) : Response :=
  respondWith (.json data) (some "application/json") ctx status initHeaders

/-! ### Middleware composition (middleware.ts `compose`) -/

/-- A route handler: may return a `Response`, return nothing (`Option.none`,
the JS `void`), or throw. -/
def HandlerF : Type := Ctx → Except Thrown (Option Response)

/-- A middleware: receives the context and a `next` thunk running the rest of
the chain. -/
def MiddlewareF : Type := Ctx → (Unit → Except Thrown Response) → Except Thrown Response

/-- `new Response("", { status: 200 })`, the substitute for a void handler
result. -/
def emptyOk : Response := ⟨200, "", [], .text ""⟩

/-- The `dispatch` closure of `compose`: run the middleware at the current
index with `next` running the remainder; past the end, run the terminal
handler and substitute an empty 200 for a void result.  (The JS version
shares the index mutably, which only differs when a middleware calls `next`
twice; no claim involves that.) -/
def composeRest (h : HandlerF) : List MiddlewareF → Ctx → Except Thrown Response
  | [], ctx =>
    match h ctx with
    | .ok r => .ok (r.getD emptyOk)
    | .error e => .error e
  | m :: rest, ctx => m ctx (fun _ => composeRest h rest ctx)

/-- `compose(middlewares, handler)` from middleware.ts: the identity on the
handler for an empty list, else the dispatch chain. -/
def composeM (mws : List MiddlewareF) (h : HandlerF) (ctx : Ctx) :
    Except Thrown (Option Response) :=
  match mws with
  | [] => h ctx
  | _ :: _ =>
    match composeRest h mws ctx with
    | .ok r => .ok (some r)
    | .error e => .error e

/-! ### The router and its fetch dispatch (router.ts `createRouter`) -/

/-- A base-36 digit, as produced by JS `Number.prototype.toString(36)`. -/
def base36Digit (n : Nat) : Char :=
  if n < 10 then Char.ofNat (48 + n) else Char.ofNat (87 + n)

/-- Digit extraction for base 36, structurally recursive on a fuel argument
(`n` itself is enough fuel, since the value shrinks by a factor 36 each
step, so the fuel-exhausted base case is unreachable for positive fuel). -/
def natToBase36Aux : Nat → Nat → List Char → List Char
  | 0, n, acc => base36Digit (n % 36) :: acc
  | fuel + 1, n, acc =>
    if n < 36 then base36Digit n :: acc
    else natToBase36Aux fuel (n / 36) (base36Digit (n % 36) :: acc)

/-- JS `n.toString(36)` for natural numbers, used by the router's
`nextRequestId = () => (++requestId).toString(36)`. -/
def natToBase36 (n : Nat) : String := String.mk (natToBase36Aux n n [])

/-- The router state built by `createRouter` and `on()`: the per-method
`routes` arrays (pattern and handler of each registered route), the
per-method tries, the global middleware list, the two configured handlers,
and the `requestId` counter. -/
structure RouterM : Type where
  routes : Method → List (String × HandlerF)
  tries : Method → TrieNode HandlerF
  middlewares : List MiddlewareF
  onError : Thrown → Ctx → Response
  onNotFound : Ctx → Except Thrown Response
  counter : Nat

/-- The default `config.onError` (router.ts lines 296-300): log and answer
`{error: "Internal Server Error", message}` with status 500. -/
def defaultOnError : Thrown → Ctx → Response := fun e ctx =>
  ctxJson ctx (Json.obj [("error", .str "Internal Server Error"), ("message", .str e.message)])
    500 []

/-- The default `config.onNotFound` (router.ts lines 301-305):
`{error: "Not Found", path}` with status 404. -/
def defaultOnNotFound : Ctx → Except Thrown Response := fun ctx =>
  .ok (ctxJson ctx (Json.obj [("error", .str "Not Found"), ("path", .str ctx.request.pathname)])
    404 [])

/-- A fresh router with the given error/not-found handlers. -/
def createRouterM (onE : Thrown → Ctx → Response) (onNF : Ctx → Except Thrown Response) :
    RouterM :=
  ⟨fun _ => [], fun _ => createTrieRoot, [], onE, onNF, 0⟩

/-- `router.on(method, path, handler)`: append to the method's route array
and insert into the method's trie. -/
def routerOn (rt : RouterM) (m : Method) (pattern : String) (h : HandlerF) : RouterM :=
  { rt with
    routes := fun m1 => if m1 = m then rt.routes m1 ++ [(pattern, h)] else rt.routes m1
    tries := fun m1 => if m1 = m then insertRoute (rt.tries m1) pattern h else rt.tries m1 }

/-- `router.use(...middlewares)`. -/
def routerUse (rt : RouterM) (mws : List MiddlewareF) : RouterM :=
  { rt with middlewares := rt.middlewares ++ mws }

/-- Whether a body is truthy for the `response?.body` check (only the JS
`null` body is falsy; even `new Response("")` carries a non-null stream). -/
def Body.truthy : Body → Bool
  | .none => false
  | _ => true

/-- The method whose trie `fetch` consults: `HEAD` silently falls back to
`GET` when no explicit HEAD routes are registered (router.ts lines 381-383). -/
def dispatchMethod (rt : RouterM) (req : Request) : Method :=
  if req.method = .HEAD ∧ (rt.routes .HEAD).length = 0 then .GET else req.method

/-- The trie lookup `matchRoute(tries[method], url.pathname)` done by `fetch`. -/
def dispatchMatch (dec : String → Option String) (rt : RouterM) (req : Request) :
    Option (HandlerF × Params) :=
  matchRoute dec (rt.tries (dispatchMethod rt req)) req.pathname

/-- The `handle` closure of `fetch`: run the matched route handler and
substitute an empty 200 for a void result, or run the configured not-found
handler. -/
def dispatchHandle (dec : String → Option String) (rt : RouterM) (req : Request) : HandlerF :=
  fun ctx =>
    match dispatchMatch dec rt req with
    | some mr =>
      match mr.1 ctx with
      | .ok r => .ok (some (r.getD emptyOk))
      | .error e => .error e
    | none =>
      match rt.onNotFound ctx with
      | .ok r => .ok (some r)
      | .error e => .error e

/-- The context `fetch` builds: `createContext(request, info, match?.params,
requestId)` with the fresh counter id `(++requestId).toString(36)`. -/
def dispatchCtx (dec : String → Option String) (rt : RouterM) (req : Request) : Ctx :=
  createContextM req (((dispatchMatch dec rt req).map (fun mr => mr.2)).getD [])
    (natToBase36 (rt.counter + 1))

/-- `fetch(request, info)` (router.ts lines 377-428): run the composed chain;
strip the body of a HEAD response; convert a thrown `HttpError` to a JSON
`{error: message}` response with its status and extra headers; hand any other
thrown value to the router-level error handler. -/
def fetchM (dec : String → Option String) (rt : RouterM) (req : Request) : Response :=
  match composeM rt.middlewares (dispatchHandle dec rt req) (dispatchCtx dec rt req) with
  | .ok (some resp) =>
    if req.method = .HEAD ∧ resp.body.truthy = true then
      ⟨resp.status, resp.statusText, resp.headers, .none⟩
    else resp
  | .ok none => emptyOk
  | .error (.http he) =>
    ctxJson (dispatchCtx dec rt req) (Json.obj [("error", .str he.message)]) he.status he.headers
  | .error e => rt.onError e (dispatchCtx dec rt req)

/-! ### Static file middleware (middleware.ts `staticFiles`, lines 596-674)

The filesystem is a function from path segments to entries; the middleware
consults it at the segments of the request pathname (modelling
`resolve(root, decodedPath.slice(1))`; percent-decoding of the path and the
traversal prefix check concern no claim and are outside the model).  The
SHA-256 `hashFile` is a JS builtin, taken as the abstract argument `hash`. -/

/-- What `Deno.stat`/`Deno.readFile` find at a path: a file with its bytes,
a directory, or nothing (`none`, making `stat` throw). -/
inductive FsEntry : Type where
  | file (bytes : List Nat) : FsEntry
  | dir : FsEntry

/-- The `staticFiles` options (defaults
`{maxAge = 0, immutable = false, index = "index.html", etag = true}`). -/
structure StaticOptions : Type where
  maxAge : Nat
  immutable : Bool
  index : String
  etag : Bool

def defaultStaticOptions : StaticOptions := ⟨0, false, "index.html", true⟩

/-- `@std/path` `extname(path).toLowerCase()`: the suffix from the last dot
of the last segment, empty for a dotfile name or a name without a dot. -/
def extnameLower (name : String) : String :=
  let cs := name.data
  let pre := (cs.reverse).takeWhile (· ≠ '.')
  if pre.length + 1 ≥ cs.length then ""
  else lowerStr (String.mk ('.' :: pre.reverse))

/-- The extension→MIME table `getContentType` of middleware.ts. -/
def getContentType : String → Option String
  | ".html" => some "text/html; charset=utf-8"
  | ".css" => some "text/css; charset=utf-8"
  | ".js" => some "application/javascript; charset=utf-8"
  | ".mjs" => some "application/javascript; charset=utf-8"
  | ".json" => some "application/json; charset=utf-8"
  | ".txt" => some "text/plain; charset=utf-8"
  | ".xml" => some "application/xml"
  | ".png" => some "image/png"
  | ".jpg" => some "image/jpeg"
  | ".jpeg" => some "image/jpeg"
  | ".gif" => some "image/gif"
  | ".svg" => some "image/svg+xml"
  | ".ico" => some "image/x-icon"
  | ".woff" => some "font/woff"
  | ".woff2" => some "font/woff2"
  | ".ttf" => some "font/ttf"
  | ".webp" => some "image/webp"
  | ".webm" => some "video/webm"
  | ".mp4" => some "video/mp4"
  | _ => none

/-- Decimal digits to a number (`parseInt(s, 10)` on an all-digit string). -/
def digitsToNat (cs : List Char) : Nat :=
  cs.foldl (fun a c => a * 10 + (c.toNat - 48)) 0

/-- The default `maxRangeLength` of `parseRangeHeader` (128 MiB). -/
def defaultMaxRangeLength : Nat := 128 * 1024 * 1024

/-- The regex-and-`parseInt` stage of `parseRangeHeader`: match
`^bytes=(\d+)-(\d*)$` and read the two decimal groups (`none` in the second
slot when the end group is empty). -/
def parseRangeBounds (rangeHeader : String) : Option (Nat × Option Nat) :=
  let cs := rangeHeader.data
  if cs.take 6 = "bytes=".data then
    let after := cs.drop 6
    let d1 := after.takeWhile Char.isDigit
    match d1, after.dropWhile Char.isDigit with
    | [], _ => none
    | _ :: _, '-' :: d2 =>
      if d2.all Char.isDigit then
        some (digitsToNat d1, if d2 = [] then none else some (digitsToNat d2))
      else none
    | _ :: _, _ => none
  else none

/-- The bounds checks of `parseRangeHeader`: default the end to
`fileSize - 1` when omitted, reject inverted or out-of-bounds ranges and
spans over the maximum. -/
def validateRange (fileSize maxRangeLength start : Nat) (stopOpt : Option Nat) :
    Option (Nat × Nat) :=
  let stop := stopOpt.getD (fileSize - 1)
  if start > stop ∨ start ≥ fileSize ∨ stop ≥ fileSize then none
  else if stop - start + 1 > maxRangeLength then none
  else some (start, stop)

/-- `parseRangeHeader(rangeHeader, fileSize, maxRangeLength)` (middleware.ts
lines 883-909).  The source's `isNaN`/negative checks cannot fire on
`\d`-matched input and a missing second group, so they have no counterpart
here; the JS float precision loss on digit runs past 2^53 cannot change any
comparison against a smaller file size. -/
def parseRangeHeader (rangeHeader : String) (fileSize maxRangeLength : Nat) :
    Option (Nat × Nat) :=
  match parseRangeBounds rangeHeader with
  | none => none
  | some (start, stopOpt) => validateRange fileSize maxRangeLength start stopOpt

/-- How the `try` block of `staticFiles` ends: with a response, with the
inner `return next()` (a directory whose index file is missing), or with an
exception reaching the bare `catch` — `some e` for the thrown
`HttpError(416)`, `none` for a filesystem error. -/
inductive ServeOutcome : Type where
  | resp (r : Response) : ServeOutcome
  | nextPass : ServeOutcome
  | thrown (e : Option HttpErrorS) : ServeOutcome

/-- The `Cache-Control` directives string from `maxAge`/`immutable`. -/
def cacheDirectives (opts : StaticOptions) : String :=
  String.intercalate ", "
    (["max-age=" ++ toString opts.maxAge] ++ (if opts.immutable then ["immutable"] else []))

/-- The Range branch and the plain-file tail of `staticFiles` (middleware.ts
lines 644-669): an unparsable range throws `HttpError(416)` carrying a
`Content-Range: bytes */size` header, a good range answers 206 with
`file.slice(start, end + 1)`, no range header answers 200 with optional
`Cache-Control`. -/
def serveRange (b : List Nat) (hs0 : List (String × String)) (opts : StaticOptions)
    (req : Request) : ServeOutcome :=
  match reqHeaderGet req "Range" with
  | some rh =>
    match parseRangeHeader rh b.length defaultMaxRangeLength with
    | none =>
      .thrown (some ⟨416, "Range Not Satisfiable",
        hdrSet hs0 "Content-Range" ("bytes */" ++ toString b.length)⟩)
    | some (start, stop) =>
      let hs := hdrSet hs0 "Content-Range"
        ("bytes " ++ toString start ++ "-" ++ toString stop ++ "/" ++ toString b.length)
      let hs := hdrSet hs "Accept-Ranges" "bytes"
      let hs := hdrSet hs "Content-Length" (toString (stop - start + 1))
      .resp ⟨206, "", hs, .bytes ((b.drop start).take (stop + 1 - start))⟩
  | none =>
    let hs := if opts.maxAge > 0 ∨ opts.immutable then
        hdrSet hs0 "Cache-Control" (cacheDirectives opts)
      else hs0
    .resp ⟨200, "", hs, .bytes b⟩

/-- Serving a found file: content type from the extension, then the ETag
short-circuit (304 on an exact `If-None-Match` hit), then `serveRange`. -/
def serveFile (b : List Nat) (fullPath : List String) (hash : List Nat → String)
    (opts : StaticOptions) (req : Request) : ServeOutcome :=
  let ext := extnameLower ((fullPath.getLast?).getD "")
  let hs0 := [("Content-Type", (getContentType ext).getD "application/octet-stream")]
  if opts.etag then
    let tag := hash b
    let hs1 := hdrSet hs0 "ETag" tag
    if reqHeaderGet req "If-None-Match" = some tag then .resp ⟨304, "", hs1, .none⟩
    else serveRange b hs1 opts req
  else serveRange b hs0 opts req

/-- The whole `try` block of `staticFiles` (middleware.ts lines 616-669):
stat the path, retry a directory against its index file, read and serve. -/
def serveTry (fs : List String → Option FsEntry) (hash : List Nat → String)
    (opts : StaticOptions) (req : Request) : ServeOutcome :=
  let segs := pathSegs req.pathname
  match fs segs with
  | none => .thrown none
  | some (.file b) => serveFile b segs hash opts req
  | some .dir =>
    match fs (segs ++ [opts.index]) with
    | none => .nextPass
    | some .dir => .thrown none
    | some (.file b) => serveFile b (segs ++ [opts.index]) hash opts req

/-- `staticFiles(root, options)` as a middleware over an abstract filesystem:
non-GET/HEAD requests pass through, and the bare `catch { return next(); }`
turns every exception of the `try` block — including the thrown
`HttpError(416)` — into a pass-through. -/
def staticFilesSrc (fs : List String → Option FsEntry) (hash : List Nat → String)
    (opts : StaticOptions) (req : Request) (next : Response) : Response :=
  if req.method ≠ .GET ∧ req.method ≠ .HEAD then next
  else
    match serveTry fs hash opts req with
    | .resp r => r
    | .nextPass => next
    | .thrown _ => next

/-! ### Dotfile policy (modelled from the spec) -/

/-- The three dotfile policies of the static file middleware. -/
inductive DotfilesPolicy : Type where
  | ignore : DotfilesPolicy
  | deny : DotfilesPolicy
  | allow : DotfilesPolicy
deriving DecidableEq

/-- The `staticFiles` options including the `dotfiles` policy. -/
structure StaticOptionsDot : Type where
  maxAge : Nat
  immutable : Bool
  index : String
  etag : Bool
  dotfiles : DotfilesPolicy

/-- The defaults of the dotfiles-aware `staticFiles`; the `dotfiles` default
is `ignore`. -/
def defaultStaticOptionsDot : StaticOptionsDot := ⟨0, false, "index.html", true, .ignore⟩

def StaticOptionsDot.base (o : StaticOptionsDot) : StaticOptions :=
  ⟨o.maxAge, o.immutable, o.index, o.etag⟩

/-- Whether the resolved path contains a leading-dot segment. -/
def hasDotSegment (segs : List String) : Bool :=
  segs.any (fun s => s.data.head? = some '.')

/-- Modelled from the spec: the `dotfiles` option of the static file
middleware.  The implementation carrying this option is missing from the
source snapshot — only its tests (`staticFiles(root, { dotfiles: "deny" })`)
and the readme's "dotfile protection" remain — so this follows the spec's
words: "On a dotfile (leading-dot path segment), apply one of three
policies: `ignore` (pass-through as if the file didn't exist), `deny` (403),
`allow` (serve normally) — configurable, default `ignore`."  Apart from the
dotfile check the middleware is `staticFilesSrc`. -/
def staticFilesDotM (fs : List String → Option FsEntry) (hash : List Nat → String)
    (opts : StaticOptionsDot) (req : Request) (next : Response) : Response :=
  if req.method ≠ .GET ∧ req.method ≠ .HEAD then next
  else if hasDotSegment (pathSegs req.pathname) then
    match opts.dotfiles with
    | .ignore => next
    | .deny => ⟨403, "", [], .none⟩
    | .allow => staticFilesSrc fs hash opts.base req next
  else staticFilesSrc fs hash opts.base req next

/-! ### Rate limiter (middleware.ts `rateLimit`, lines 689-732) -/

/-- A per-key entry of the limiter's `requests` map. -/
structure RLEntry : Type where
  count : Nat
  reset : Nat
deriving DecidableEq

/-- The limiter's key→entry map (insertion-ordered, unique keys). -/
abbrev RLStore : Type := List (String × RLEntry)

def rlGet (store : RLStore) (key : String) : Option RLEntry :=
  (store.find? (fun kv => kv.1 = key)).map (fun kv => kv.2)

/-- `Map.prototype.set`: overwrite the key's entry in place, else append. -/
def rlSet : RLStore → String → RLEntry → RLStore
  | [], key, e => [(key, e)]
  | kv :: s, key, e => if kv.1 = key then (key, e) :: s else kv :: rlSet s key e

/-- `Math.ceil(d / 1000)` for a nonnegative numerator. -/
def ceilDiv1000 (d : Nat) : Nat := (d + 999) / 1000

/-- What one request does to the limiter: pass to `next()` or short-circuit
with the thrown `TooManyRequestsError`; either way the updated map. -/
inductive RLResult : Type where
  | pass (store : RLStore) : RLResult
  | blocked (e : HttpErrorS) (store : RLStore) : RLResult

def RLResult.store : RLResult → RLStore
  | .pass s => s
  | .blocked _ s => s

def RLResult.isBlocked : RLResult → Bool
  | .pass _ => false
  | .blocked _ _ => true

/-- The `HttpError` a blocked request throws, if any. -/
def RLResult.thrownError : RLResult → Option HttpErrorS
  | .pass _ => none
  | .blocked e _ => some e

/-- One request through the rate limiter middleware (middleware.ts lines
710-726), with the default 429 path (`ctx.tooManyRequests(undefined,
retryAfter)`, whose default message is `"Too Many Requests Error"`); a
custom `handler` override concerns no claim.  `Math.ceil((data.reset - now)
/ 1000)` is computed on naturals: in the blocked branch the entry was not
expired, so `data.reset ≥ now`. -/
def rateLimitStep (windowMs maxReq : Nat) (store : RLStore) (key : String) (now : Nat) :
    RLResult :=
  let data : RLEntry :=
    match rlGet store key with
    | some d => if now > d.reset then ⟨0, now + windowMs⟩ else d
    | none => ⟨0, now + windowMs⟩
  let data1 : RLEntry := ⟨data.count + 1, data.reset⟩
  let store1 := rlSet store key data1
  if data1.count > maxReq then
    .blocked
      (TooManyRequestsErrorM "Too Many Requests Error"
        (some (toString (ceilDiv1000 (data.reset - now)))))
      store1
  else .pass store1

/-- A sequence of requests for one key at the given times, each seeing the
map the previous one left. -/
def rlRunTimes (windowMs maxReq : Nat) (key : String) : RLStore → List Nat → List RLResult
  | _, [] => []
  | store, t :: ts =>
    let r := rateLimitStep windowMs maxReq store key t
    r :: rlRunTimes windowMs maxReq key r.store ts

/-! ### Statement helpers and concrete fixtures -/

/-- A STATIC pattern segment. -/
def statSeg (s : String) : PatSeg := ⟨.STATIC, s, false⟩

/-- The part of a pattern segment that `insertRoute` keys children on: the
kind together with the literal text (STATIC) or parameter name (the
`segment` field carries it for PARAM/WILDCARD). -/
def segKey (sg : PatSeg) : NodeType × String := (sg.ty, sg.segment)

/-- Whether a trie node is a STATIC child. -/
def isStaticNode {α : Type} (c : TrieNode α) : Bool := c.ty = NodeType.STATIC

/-- Whether a child list is in STATIC-before-PARAM-before-WILDCARD order. -/
def ranksMono {α : Type} : List (TrieNode α) → Bool
  | [] => true
  | [_] => true
  | c :: d :: cs => decide (c.ty.rank ≤ d.ty.rank) && ranksMono (d :: cs)

/-- Every node of the trie keeps its children ordered STATIC, then PARAM,
then WILDCARD — the order in which `search` tries them. -/
inductive TrieSorted {α : Type} : TrieNode α → Prop where
  | mk (t : TrieNode α) : ranksMono t.children = true →
      (∀ c, c ∈ t.children → TrieSorted c) → TrieSorted t

/-- The identity instantiation of the abstract `decodeURIComponent`, usable
whenever no parameter value contains a percent escape. -/
def decId : String → Option String := fun s => some s

/-- A handler that throws a concrete `HttpError` (status 418 with one extra
header), for exercising the dispatch fault path. -/
def teapotError : HttpErrorS := ⟨418, "teapot", [("X-T", "1")]⟩

def teapotRouter : RouterM :=
  routerOn (createRouterM defaultOnError defaultOnNotFound) .GET "/x"
    (fun _ => .error (.http teapotError))

def teapotRequest : Request := ⟨.GET, "/x", []⟩

/-- A router with one GET route answering a bodyful response, for the HEAD
fallback scenario. -/
def docRouter : RouterM :=
  routerOn (createRouterM defaultOnError defaultOnNotFound) .GET "/doc"
    (fun _ => .ok (some ⟨200, "OK", [("a", "b")], .text "hello"⟩))

def docHeadRequest : Request := ⟨.HEAD, "/doc", []⟩

/-- A GET request carrying an inbound `X-Request-ID` header. -/
def taggedRequest : Request := ⟨.GET, "/x", [("X-Request-ID", "abc")]⟩

def noopRouter : RouterM :=
  routerOn (createRouterM defaultOnError defaultOnNotFound) .GET "/x" (fun _ => .ok none)

/-- A five-byte file at `/a.txt`, for the Range scenarios. -/
def rangeFs : List String → Option FsEntry :=
  fun segs => if segs = ["a.txt"] then some (.file [10, 20, 30, 40, 50]) else none

/-- A degenerate stand-in for the abstract SHA-256 hex digest. -/
def constHash : List Nat → String := fun _ => "h"

def rangeRequest (r : String) : Request := ⟨.GET, "/a.txt", [("Range", r)]⟩

/-- The pass-through response used as `next()` in middleware fixtures. -/
def nextResponse : Response := ⟨404, "", [], .none⟩

def dotfileRequest : Request := ⟨.GET, "/.env", []⟩

/-! ## Theorems -/

/-- C4: for a registered wildcard route `/files/*`, a request `/files/a/b/c`
matches with the remaining segments joined by `/` bound to the default key
`*`; but the code does not treat the wildcard as a terminal match for an
empty remainder: `/files/` finds no route at all (the wildcard child is not
`optional`, so the exhausted-path branch of `search` skips it), contradicting
the claim, the spec and the repository's own test "wildcard with empty
path". -/
theorem c4_wildcard_empty_remainder_bug :
    matchRoute decId (buildTrie [("/files/*", 0)]) "/files/a/b/c" = some (0, [("*", "a/b/c")])
    ∧ matchRoute decId (buildTrie [("/files/*", 0)]) "/files/" = none := by
  constructor <;> rfl

/-- C9 (amended): the context's request identifier is always the router's
counter plus one rendered in base 36, whatever the request headers hold; the
inbound `X-Request-ID` header does not take part. -/
theorem c9_request_id_is_counter (dec : String → Option String) (rt : RouterM) (req : Request) :
    (dispatchCtx dec rt req).requestId = natToBase36 (rt.counter + 1) := rfl

/-- C9 counterexample: a request carrying `X-Request-ID: abc` dispatched on a
fresh router gets the counter id `"1"`, not `"abc"` as the claim states. -/
theorem c9_request_id_counterexample :
    reqHeaderGet taggedRequest "X-Request-ID" = some "abc"
    ∧ (dispatchCtx decId noopRouter taggedRequest).requestId = "1"
    ∧ ("1" : String) ≠ "abc" := by
  refine ⟨rfl, rfl, by decide⟩

/-- C2: when the composed middleware/handler chain throws an `HttpError`,
`fetch` answers `ctx.json({error: message})` with the error's status and its
extra headers; any other thrown value goes to the router-level error handler;
and the default error handler produces the JSON 500
`{error: "Internal Server Error", message}` payload. -/
theorem c2_fault_dispatch (dec : String → Option String) (rt : RouterM) (req : Request) :
    (∀ he : HttpErrorS,
      composeM rt.middlewares (dispatchHandle dec rt req) (dispatchCtx dec rt req)
        = .error (.http he) →
      fetchM dec rt req
        = ctxJson (dispatchCtx dec rt req) (Json.obj [("error", .str he.message)])
            he.status he.headers)
    ∧ (∀ msg : String,
      composeM rt.middlewares (dispatchHandle dec rt req) (dispatchCtx dec rt req)
        = .error (.other msg) →
      fetchM dec rt req = rt.onError (.other msg) (dispatchCtx dec rt req))
    ∧ (∀ (e : Thrown) (ctx : Ctx),
      defaultOnError e ctx
        = ctxJson ctx
            (Json.obj [("error", .str "Internal Server Error"), ("message", .str e.message)])
            500 []) := by
  refine ⟨fun he h => ?_, fun msg h => ?_, fun e ctx => rfl⟩ <;>
    · unfold fetchM
      rw [h]

/-- C2 witness: a handler throwing `HttpError(418, "teapot", {X-T: 1})` makes
`fetch` answer the JSON error response with status 418 and that header. -/
theorem c2_fault_dispatch_witness :
    fetchM decId teapotRouter teapotRequest
      = ctxJson (dispatchCtx decId teapotRouter teapotRequest)
          (Json.obj [("error", .str "teapot")]) 418 [("X-T", "1")] :=
  (c2_fault_dispatch decId teapotRouter teapotRequest).1 teapotError rfl

/-- C5: under a HEAD request, `fetch` consults the GET trie exactly when zero
HEAD routes are registered, and the response of the chain comes back with its
body removed and its status, statusText and headers unchanged. -/
theorem c5_head_get_fallback (dec : String → Option String) (rt : RouterM) (req : Request)
    (resp : Response) (hm : req.method = .HEAD) :
    (dispatchMethod rt req = .GET ↔ (rt.routes .HEAD).length = 0)
    ∧ ((rt.routes .HEAD).length = 0 →
      composeM rt.middlewares (dispatchHandle dec rt req) (dispatchCtx dec rt req)
        = .ok (some resp) →
      resp.body.truthy = true →
      fetchM dec rt req = ⟨resp.status, resp.statusText, resp.headers, Body.none⟩) := by
  constructor
  · unfold dispatchMethod
    rw [hm]
    by_cases h0 : (rt.routes .HEAD).length = 0 <;> simp [h0]
  · intro _ h1 h2
    unfold fetchM
    rw [h1]
    simp [hm, h2]

/-- C5 witness: a HEAD request on a router whose only route is a GET route
with a bodyful response comes back 200 with the body stripped and the header
kept. -/
theorem c5_head_get_fallback_witness :
    dispatchMethod docRouter docHeadRequest = .GET
    ∧ fetchM decId docRouter docHeadRequest = ⟨200, "OK", [("a", "b")], Body.none⟩ :=
  ⟨(c5_head_get_fallback decId docRouter docHeadRequest
      ⟨200, "OK", [("a", "b")], .text "hello"⟩ rfl).1.mpr rfl,
   (c5_head_get_fallback decId docRouter docHeadRequest
      ⟨200, "OK", [("a", "b")], .text "hello"⟩ rfl).2 rfl rfl rfl⟩

/-- C8 (modelled from the spec, the dotfiles-aware `staticFiles` being absent
from the snapshot): on a GET/HEAD request whose path has a leading-dot
segment the middleware passes through under `ignore`, answers 403 under
`deny`, behaves exactly like the plain middleware under `allow`, and the
default policy is `ignore`. -/
theorem c8_dotfile_policy (fs : List String → Option FsEntry) (hash : List Nat → String)
    (opts : StaticOptionsDot) (req : Request) (next : Response)
    (hm : req.method = .GET ∨ req.method = .HEAD)
    (hd : hasDotSegment (pathSegs req.pathname) = true) :
    (opts.dotfiles = .ignore → staticFilesDotM fs hash opts req next = next)
    ∧ (opts.dotfiles = .deny → (staticFilesDotM fs hash opts req next).status = 403)
    ∧ (opts.dotfiles = .allow →
      staticFilesDotM fs hash opts req next = staticFilesSrc fs hash opts.base req next)
    ∧ defaultStaticOptionsDot.dotfiles = .ignore := by
  have hcond : ¬(req.method ≠ .GET ∧ req.method ≠ .HEAD) := by
    rcases hm with h | h <;> simp [h]
  refine ⟨fun hp => ?_, fun hp => ?_, fun hp => ?_, rfl⟩ <;>
    simp [staticFilesDotM, hcond, hd, hp]

/-- C8 witness: a GET for `/.env` under the default options passes through
untouched, and the default policy is `ignore`. -/
theorem c8_dotfile_policy_witness :
    staticFilesDotM rangeFs constHash defaultStaticOptionsDot dotfileRequest nextResponse
      = nextResponse
    ∧ defaultStaticOptionsDot.dotfiles = .ignore := by
  have h := c8_dotfile_policy rangeFs constHash defaultStaticOptionsDot dotfileRequest
    nextResponse (Or.inl rfl) (by decide)
  exact ⟨h.1 rfl, h.2.2.2⟩

/-- Reading back the entry just written to the limiter map. -/
theorem rlGet_rlSet (store : RLStore) (key : String) (e : RLEntry) :
    rlGet (rlSet store key e) key = some e := by
  induction store with
  | nil => simp [rlGet, rlSet]
  | cons kv s ih =>
    by_cases hk : kv.1 = key
    · simp [rlGet, rlSet, hk, List.find?]
    · simp only [rlSet, if_neg hk]
      simpa [rlGet, List.find?, hk] using ih

/-- A request on an unexpired entry increments the stored counter, keeps the
reset time, and is blocked whenever the counter had already reached the
maximum. -/
theorem rlStep_kept (W maxReq : Nat) (key : String) (store : RLStore) (e : RLEntry)
    (now : Nat) (hget : rlGet store key = some e) (hle : now ≤ e.reset) :
    (rateLimitStep W maxReq store key now).store = rlSet store key ⟨e.count + 1, e.reset⟩
    ∧ (maxReq ≤ e.count → (rateLimitStep W maxReq store key now).isBlocked = true) := by
  have hng : ¬(now > e.reset) := by omega
  constructor
  · by_cases hc : e.count + 1 > maxReq <;>
      simp [rateLimitStep, hget, hng, hc, RLResult.store]
  · intro hmax
    have hc : e.count + 1 > maxReq := by omega
    simp [rateLimitStep, hget, hng, hc, RLResult.isBlocked]

/-- C6: with `max = 2` and window `W`, a key unknown to the limiter map sees
its first two requests pass, the third request before the reset time is
blocked by the thrown 429 `TooManyRequestsError` whose `Retry-After` value
`ceil((t1 + W - t3) / 1000)` is at most `ceil(W / 1000)`; and the first
request after a key's reset time has passed gets a reset entry
(count 1, reset `now + W`) and passes through to `next()`. -/
theorem c6_rate_limit_window (W : Nat) (key : String) (store : RLStore) (t1 t2 t3 : Nat)
    (h0 : rlGet store key = none) (h12 : t1 ≤ t2) (h2w : t2 ≤ t1 + W)
    (h23 : t2 ≤ t3) (h3w : t3 ≤ t1 + W) :
    ((rateLimitStep W 2 store key t1).isBlocked = false)
    ∧ ((rateLimitStep W 2 (rateLimitStep W 2 store key t1).store key t2).isBlocked = false)
    ∧ ((rateLimitStep W 2
          (rateLimitStep W 2 (rateLimitStep W 2 store key t1).store key t2).store
          key t3).thrownError
        = some ⟨429, "Too Many Requests Error",
            [("Retry-After", toString (ceilDiv1000 (t1 + W - t3)))]⟩)
    ∧ ceilDiv1000 (t1 + W - t3) ≤ ceilDiv1000 W
    ∧ (∀ (s : RLStore) (c R t4 : Nat), rlGet s key = some ⟨c, R⟩ → R < t4 →
        rateLimitStep W 2 s key t4 = .pass (rlSet s key ⟨1, t4 + W⟩)) := by
  have e1 : rateLimitStep W 2 store key t1 = .pass (rlSet store key ⟨1, t1 + W⟩) := by
    simp [rateLimitStep, h0]
  have g1 : rlGet (rlSet store key ⟨1, t1 + W⟩) key = some ⟨1, t1 + W⟩ :=
    rlGet_rlSet store key ⟨1, t1 + W⟩
  have e2 : rateLimitStep W 2 (rlSet store key ⟨1, t1 + W⟩) key t2
      = .pass (rlSet (rlSet store key ⟨1, t1 + W⟩) key ⟨2, t1 + W⟩) := by
    simp [rateLimitStep, g1, show ¬(t2 > t1 + W) by omega]
  have g2 : rlGet (rlSet (rlSet store key ⟨1, t1 + W⟩) key ⟨2, t1 + W⟩) key
      = some ⟨2, t1 + W⟩ := rlGet_rlSet _ key ⟨2, t1 + W⟩
  refine ⟨by rw [e1]; rfl, ?_, ?_, ?_, ?_⟩
  · rw [e1]
    show (rateLimitStep W 2 (rlSet store key ⟨1, t1 + W⟩) key t2).isBlocked = false
    rw [e2]
    rfl
  · rw [e1]
    show (rateLimitStep W 2
      (rateLimitStep W 2 (rlSet store key ⟨1, t1 + W⟩) key t2).store key t3).thrownError = _
    rw [e2]
    show (rateLimitStep W 2
      (rlSet (rlSet store key ⟨1, t1 + W⟩) key ⟨2, t1 + W⟩) key t3).thrownError = _
    simp [rateLimitStep, g2, show ¬(t3 > t1 + W) by omega, RLResult.thrownError,
      TooManyRequestsErrorM]
  · exact Nat.div_le_div_right (by omega)
  · intro s c R t4 hget hlt
    simp [rateLimitStep, hget, show t4 > R from hlt]

/-- C6 witness: max 2, window 5000 ms, requests at 0, 1000 and 2000 ms — the
third is blocked with `Retry-After: 3` — and a request at 101 ms on an entry
that expired at 100 ms resets it and passes. -/
theorem c6_rate_limit_window_witness :
    ((rateLimitStep 5000 2
        (rateLimitStep 5000 2 (rateLimitStep 5000 2 [] "k" 0).store "k" 1000).store
        "k" 2000).thrownError
      = some ⟨429, "Too Many Requests Error", [("Retry-After", "3")]⟩)
    ∧ rateLimitStep 5000 2 [("k", ⟨3, 100⟩)] "k" 101 = .pass [("k", ⟨1, 5101⟩)] := by
  have h := c6_rate_limit_window 5000 "k" [] 0 1000 2000 rfl (by omega) (by omega)
    (by omega) (by omega)
  constructor
  · simpa using h.2.2.1
  · simpa using h.2.2.2.2 [("k", ⟨3, 100⟩)] 3 100 101 rfl (by omega)

/-- C10 (implicit): the limiter increments a key's counter on every request
it sees inside the window — rejected ones included — and rejection leaves
the reset time untouched; consequently, once the counter has reached the
maximum, every further request for that key arriving before the reset time
is also rejected. -/
theorem c10_rejection_consumes_quota (W maxReq : Nat) (key : String) :
    (∀ (store : RLStore) (e : RLEntry) (now : Nat),
      rlGet store key = some e → now ≤ e.reset →
      (rateLimitStep W maxReq store key now).store = rlSet store key ⟨e.count + 1, e.reset⟩
      ∧ (maxReq ≤ e.count → (rateLimitStep W maxReq store key now).isBlocked = true))
    ∧ (∀ (store : RLStore) (e : RLEntry) (times : List Nat),
      rlGet store key = some e → maxReq ≤ e.count → (∀ t ∈ times, t ≤ e.reset) →
      ∀ r ∈ rlRunTimes W maxReq key store times, r.isBlocked = true) := by
  refine ⟨fun store e now hget hle => rlStep_kept W maxReq key store e now hget hle, ?_⟩
  intro store e times
  induction times generalizing store e with
  | nil => intro _ _ _ r hr; simp [rlRunTimes] at hr
  | cons t ts ih =>
    intro hget hmax hall r hr
    have hle : t ≤ e.reset := hall t (by simp)
    have hk := rlStep_kept W maxReq key store e t hget hle
    rw [rlRunTimes] at hr
    rcases List.mem_cons.mp hr with hr | hr
    · rw [hr]
      exact hk.2 hmax
    · refine ih ((rateLimitStep W maxReq store key t).store) ⟨e.count + 1, e.reset⟩ ?_
        (by show maxReq ≤ e.count + 1; omega)
        (fun x hx => hall x (by simp [hx])) r hr
      rw [hk.1]
      exact rlGet_rlSet store key ⟨e.count + 1, e.reset⟩

/-- C10 witness: an entry at count 2 (max 2, reset 500) gets its counter
pushed to 3 by a rejected request at 400, and requests at 400, 450 and 500
are all rejected. -/
theorem c10_rejection_consumes_quota_witness :
    (rateLimitStep 1000 2 [("k", ⟨2, 500⟩)] "k" 400).store = [("k", ⟨3, 500⟩)]
    ∧ ∀ r ∈ rlRunTimes 1000 2 "k" [("k", ⟨2, 500⟩)] [400, 450, 500], r.isBlocked = true := by
  have h := c10_rejection_consumes_quota 1000 2 "k"
  constructor
  · simpa using (h.1 [("k", ⟨2, 500⟩)] ⟨2, 500⟩ 400 rfl (by decide)).1
  · exact h.2 [("k", ⟨2, 500⟩)] ⟨2, 500⟩ [400, 450, 500] rfl (by decide) (by decide)

/-- Reading back the header just set. -/
theorem hdrGet_hdrSet_self (hs : List (String × String)) (k v : String) :
    hdrGet (hdrSet hs k v) k = some v := by
  induction hs with
  | nil => simp [hdrGet, hdrSet, List.find?]
  | cons kv hs ih =>
    by_cases hk : lowerStr kv.1 = lowerStr k
    · simp [hdrGet, hdrSet, hk, List.find?]
    · simp only [hdrSet, if_neg hk]
      simpa [hdrGet, List.find?, hk] using ih

/-- Setting one header leaves the others readable unchanged. -/
theorem hdrGet_hdrSet_other (hs : List (String × String)) (k k1 v : String)
    (h : lowerStr k1 ≠ lowerStr k) : hdrGet (hdrSet hs k v) k1 = hdrGet hs k1 := by
  have h2 : ¬(lowerStr k = lowerStr k1) := fun hh => h hh.symm
  induction hs with
  | nil => simp [hdrGet, hdrSet, List.find?, h2]
  | cons kv hs ih =>
    by_cases hk : lowerStr kv.1 = lowerStr k
    · have hne : ¬(lowerStr kv.1 = lowerStr k1) := by rw [hk]; exact h2
      simp [hdrGet, hdrSet, hk, List.find?, hne, h2]
    · simp only [hdrSet, if_neg hk]
      by_cases hk1 : lowerStr kv.1 = lowerStr k1
      · simp [hdrGet, List.find?, hk1]
      · simpa [hdrGet, List.find?, hk1] using ih

/-- With no `If-None-Match` header, `serveFile` cannot answer 304 and lands
in its Range stage over some base header list. -/
theorem serveFile_toRange (b : List Nat) (fullPath : List String) (hash : List Nat → String)
    (opts : StaticOptions) (req : Request)
    (hI : reqHeaderGet req "If-None-Match" = none) :
    ∃ hs0, serveFile b fullPath hash opts req = serveRange b hs0 opts req := by
  by_cases he : opts.etag
  · refine ⟨hdrSet [("Content-Type",
      (getContentType (extnameLower ((fullPath.getLast?).getD ""))).getD
        "application/octet-stream")] "ETag" (hash b), ?_⟩
    simp [serveFile, he, hI]
  · refine ⟨[("Content-Type",
      (getContentType (extnameLower ((fullPath.getLast?).getD ""))).getD
        "application/octet-stream")], ?_⟩
    simp [serveFile, he]

/-- A parsable in-bounds range yields the 206 partial response. -/
theorem serveRange_206 (b : List Nat) (hs0 : List (String × String)) (opts : StaticOptions)
    (req : Request) (rh : String) (s e : Nat)
    (hrg : reqHeaderGet req "Range" = some rh)
    (hpr : parseRangeHeader rh b.length defaultMaxRangeLength = some (s, e)) :
    serveRange b hs0 opts req = .resp ⟨206, "",
      hdrSet (hdrSet (hdrSet hs0 "Content-Range"
          ("bytes " ++ toString s ++ "-" ++ toString e ++ "/" ++ toString b.length))
        "Accept-Ranges" "bytes") "Content-Length" (toString (e - s + 1)),
      .bytes ((b.drop s).take (e + 1 - s))⟩ := by
  simp [serveRange, hrg, hpr]

/-- An unparsable or unsatisfiable range throws the 416 `HttpError` whose
headers carry `Content-Range: bytes */size`. -/
theorem serveRange_416 (b : List Nat) (hs0 : List (String × String)) (opts : StaticOptions)
    (req : Request) (rh : String)
    (hrg : reqHeaderGet req "Range" = some rh)
    (hpr : parseRangeHeader rh b.length defaultMaxRangeLength = none) :
    serveRange b hs0 opts req = .thrown (some ⟨416, "Range Not Satisfiable",
      hdrSet hs0 "Content-Range" ("bytes */" ++ toString b.length)⟩) := by
  simp [serveRange, hrg, hpr]

/-- C3: on a file of `b.length` bytes served by the static middleware, a GET
whose `Range` header parses to the bounds `(0, 0)` (e.g. `bytes=0-0`) gets a
206 whose body is exactly the first byte with
`Content-Range: bytes 0-0/size`; but for bounds `(size, size)` (e.g.
`bytes=size-size`, unsatisfiable) the `try` block does throw the
`HttpError(416)` carrying `Content-Range: bytes */size` — and the bare
`catch { return next(); }` swallows it, so the middleware passes the request
through instead of answering 416 as the claim states. -/
theorem c3_range_bounds (fs : List String → Option FsEntry) (hash : List Nat → String)
    (opts : StaticOptions) (req1 req2 : Request) (b : List Nat) (next : Response)
    (hS : 1 ≤ b.length)
    (hm1 : req1.method = .GET) (hf1 : fs (pathSegs req1.pathname) = some (.file b))
    (hr1 : ∃ rh, reqHeaderGet req1 "Range" = some rh ∧ parseRangeBounds rh = some (0, some 0))
    (hi1 : reqHeaderGet req1 "If-None-Match" = none)
    (hm2 : req2.method = .GET) (hf2 : fs (pathSegs req2.pathname) = some (.file b))
    (hr2 : ∃ rh, reqHeaderGet req2 "Range" = some rh
      ∧ parseRangeBounds rh = some (b.length, some b.length))
    (hi2 : reqHeaderGet req2 "If-None-Match" = none) :
    ((staticFilesSrc fs hash opts req1 next).status = 206
      ∧ hdrGet (staticFilesSrc fs hash opts req1 next).headers "Content-Range"
          = some ("bytes 0-0/" ++ toString b.length)
      ∧ (staticFilesSrc fs hash opts req1 next).body = .bytes (b.take 1)
      ∧ (b.take 1).length = 1)
    ∧ ((∃ err, serveTry fs hash opts req2 = .thrown (some err) ∧ err.status = 416
          ∧ hdrGet err.headers "Content-Range" = some ("bytes */" ++ toString b.length))
      ∧ staticFilesSrc fs hash opts req2 next = next) := by
  obtain ⟨rh1, hrg1, hpb1⟩ := hr1
  obtain ⟨rh2, hrg2, hpb2⟩ := hr2
  have hv1 : parseRangeHeader rh1 b.length defaultMaxRangeLength = some (0, 0) := by
    have hb : ¬(0 ≥ b.length) := by omega
    simp [parseRangeHeader, hpb1, validateRange, hb, defaultMaxRangeLength]
  have hv2 : parseRangeHeader rh2 b.length defaultMaxRangeLength = none := by
    simp [parseRangeHeader, hpb2, validateRange]
  obtain ⟨hs01, hsf1⟩ := serveFile_toRange b (pathSegs req1.pathname) hash opts req1 hi1
  obtain ⟨hs02, hsf2⟩ := serveFile_toRange b (pathSegs req2.pathname) hash opts req2 hi2
  have hst1 : serveTry fs hash opts req1 = serveRange b hs01 opts req1 := by
    simp only [serveTry, hf1]
    exact hsf1
  have hst2 : serveTry fs hash opts req2 = serveRange b hs02 opts req2 := by
    simp only [serveTry, hf2]
    exact hsf2
  have h206 := serveRange_206 b hs01 opts req1 rh1 0 0 hrg1 hv1
  have h416 := serveRange_416 b hs02 opts req2 rh2 hrg2 hv2
  have hnm1 : ¬(req1.method ≠ Method.GET ∧ req1.method ≠ Method.HEAD) := by simp [hm1]
  have hnm2 : ¬(req2.method ≠ Method.GET ∧ req2.method ≠ Method.HEAD) := by simp [hm2]
  have hres1 : staticFilesSrc fs hash opts req1 next = Response.mk 206 ""
      (hdrSet (hdrSet (hdrSet hs01 "Content-Range"
          ("bytes " ++ toString 0 ++ "-" ++ toString 0 ++ "/" ++ toString b.length))
        "Accept-Ranges" "bytes") "Content-Length" (toString (0 - 0 + 1)))
      (.bytes ((b.drop 0).take (0 + 1 - 0))) := by
    rw [staticFilesSrc, if_neg hnm1, hst1, h206]
  refine ⟨⟨?_, ?_, ?_, ?_⟩, ⟨⟨⟨416, "Range Not Satisfiable",
    hdrSet hs02 "Content-Range" ("bytes */" ++ toString b.length)⟩, ?_, rfl, ?_⟩, ?_⟩⟩
  · rw [hres1]
  · rw [hres1]
    show hdrGet (hdrSet (hdrSet (hdrSet hs01 "Content-Range" _) _ _) _ _) "Content-Range" = _
    rw [hdrGet_hdrSet_other _ _ _ _ (by decide), hdrGet_hdrSet_other _ _ _ _ (by decide),
      hdrGet_hdrSet_self]
    rw [show ("bytes " ++ toString (0 : Nat) ++ "-" ++ toString (0 : Nat) ++ "/" : String)
      = "bytes 0-0/" from by decide]
  · rw [hres1]
    simp
  · simp [List.length_take]
    omega
  · rw [hst2, h416]
  · exact hdrGet_hdrSet_self hs02 "Content-Range" ("bytes */" ++ toString b.length)
  · rw [staticFilesSrc, if_neg hnm2, hst2, h416]

/-- C3 witness: a five-byte file; `Range: bytes=0-0` answers 206 with one
byte and `Content-Range: bytes 0-0/5`; `Range: bytes=5-5` builds the 416
error inside the `try` block, and the middleware passes through. -/
theorem c3_range_bounds_witness :
    ((staticFilesSrc rangeFs constHash defaultStaticOptions (rangeRequest "bytes=0-0")
        nextResponse).status = 206
      ∧ hdrGet (staticFilesSrc rangeFs constHash defaultStaticOptions
          (rangeRequest "bytes=0-0") nextResponse).headers "Content-Range"
          = some ("bytes 0-0/" ++ toString (5 : Nat))
      ∧ (staticFilesSrc rangeFs constHash defaultStaticOptions (rangeRequest "bytes=0-0")
          nextResponse).body = .bytes [10])
    ∧ staticFilesSrc rangeFs constHash defaultStaticOptions (rangeRequest "bytes=5-5")
        nextResponse = nextResponse := by
  have h := c3_range_bounds rangeFs constHash defaultStaticOptions
    (rangeRequest "bytes=0-0") (rangeRequest "bytes=5-5") [10, 20, 30, 40, 50] nextResponse
    (by decide) rfl rfl ⟨"bytes=0-0", rfl, by decide⟩ rfl
    rfl rfl ⟨"bytes=5-5", rfl, by decide⟩ rfl
  exact ⟨⟨h.1.1, h.1.2.1, h.1.2.2.1⟩, h.2.2⟩

/-! ### Lemmas on tries built from a single route (for the optional-param
claim): inserting `staticSegs ++ [:name?]` into a leaf builds a chain of
STATIC nodes ending in an optional PARAM node. -/

theorem insertSegs_ty {α : Type} (t : TrieNode α) (segs : List PatSeg) (hid : α) :
    (insertSegs t segs hid).ty = t.ty := by
  obtain ⟨ty, sg, pn, opt, cs, h⟩ := t
  cases segs <;> rfl

theorem insertSegs_segment {α : Type} (t : TrieNode α) (segs : List PatSeg) (hid : α) :
    (insertSegs t segs hid).segment = t.segment := by
  obtain ⟨ty, sg, pn, opt, cs, h⟩ := t
  cases segs <;> rfl

theorem insertSegs_paramName {α : Type} (t : TrieNode α) (segs : List PatSeg) (hid : α) :
    (insertSegs t segs hid).paramName = t.paramName := by
  obtain ⟨ty, sg, pn, opt, cs, h⟩ := t
  cases segs <;> rfl

theorem insertSegs_optional {α : Type} (t : TrieNode α) (segs : List PatSeg) (hid : α) :
    (insertSegs t segs hid).optional = t.optional := by
  obtain ⟨ty, sg, pn, opt, cs, h⟩ := t
  cases segs <;> rfl

theorem insertSegs_handler_cons {α : Type} (t : TrieNode α) (psg : PatSeg)
    (rest : List PatSeg) (hid : α) :
    (insertSegs t (psg :: rest) hid).handler = t.handler := by
  obtain ⟨ty, sg, pn, opt, cs, h⟩ := t
  rfl

/-- Inserting below a childless node creates exactly one (fresh) child. -/
theorem insertSegs_leaf {α : Type} (ty : NodeType) (sg pn : String) (opt : Bool)
    (h : Option α) (psg : PatSeg) (rest : List PatSeg) (hid : α) :
    insertSegs (.mk ty sg pn opt [] h) (psg :: rest) hid
      = .mk ty sg pn opt [insertSegs (newNode psg) rest hid] h := by
  simp [insertSegs, sortByType, insSorted]

/-- The static fast path fails on the single-route optional-param trie, both
with the final segment present and with it absent (no handler sits on a
STATIC node). -/
theorem chain_matchStatic_none (name : String) (hid : Nat) (v : String) :
    ∀ (ps : List String) (ty : NodeType) (sg pn : String) (opt : Bool),
      matchStatic (insertSegs (.mk ty sg pn opt [] none)
        (ps.map statSeg ++ [⟨.PARAM, name, true⟩]) hid) (ps ++ [v]) = none
      ∧ matchStatic (insertSegs (.mk ty sg pn opt [] none)
        (ps.map statSeg ++ [⟨.PARAM, name, true⟩]) hid) ps = none := by
  intro ps
  induction ps with
  | nil =>
    intro ty sg pn opt
    constructor
    · rw [List.map_nil, List.nil_append, insertSegs_leaf]
      simp [matchStatic, findStaticChild, List.find?, insertSegs, newNode,
        TrieNode.ty, TrieNode.segment, TrieNode.children, TrieNode.handler]
    · rw [List.map_nil, List.nil_append, insertSegs_leaf]
      simp [matchStatic, TrieNode.handler]
  | cons p ps ih =>
    intro ty sg pn opt
    rw [List.map_cons, List.cons_append, insertSegs_leaf]
    have hty : (insertSegs (newNode (statSeg p) : TrieNode Nat)
        (ps.map statSeg ++ [⟨.PARAM, name, true⟩]) hid).ty = .STATIC := by
      rw [insertSegs_ty]; rfl
    have hsg : (insertSegs (newNode (statSeg p) : TrieNode Nat)
        (ps.map statSeg ++ [⟨.PARAM, name, true⟩]) hid).segment = p := by
      rw [insertSegs_segment]; rfl
    constructor
    · rw [List.cons_append]
      simp only [matchStatic, TrieNode.children, findStaticChild, List.find?, hty, hsg]
      simp only [decide_True, Bool.and_self]
      exact (ih .STATIC p "" false).1
    · simp only [matchStatic, TrieNode.children, findStaticChild, List.find?, hty, hsg]
      simp only [decide_True, Bool.and_self]
      exact (ih .STATIC p "" false).2

/-- The backtracking search on the single-route optional-param trie: with the
final segment `v` present it binds `name := v`, with it absent it matches
through the optional-terminal branch with no binding; neither sets the
decoding flag when `v` has no percent escape. -/
theorem chain_searchT (name : String) (hid : Nat) (v : String)
    (hv : hasPercent v = false) :
    ∀ (ps : List String) (ty : NodeType) (sg pn : String) (opt : Bool) (params : Params),
      searchT (insertSegs (.mk ty sg pn opt [] none)
        (ps.map statSeg ++ [⟨.PARAM, name, true⟩]) hid) (ps ++ [v]) params
        = (some (hid, setParam params name v), false)
      ∧ (ps ≠ [] →
        searchT (insertSegs (.mk ty sg pn opt [] none)
          (ps.map statSeg ++ [⟨.PARAM, name, true⟩]) hid) ps params
          = (some (hid, params), false)) := by
  intro ps
  induction ps with
  | nil =>
    intro ty sg pn opt params
    refine ⟨?_, fun hne => absurd rfl hne⟩
    rw [List.map_nil, List.nil_append, insertSegs_leaf]
    simp [searchT, insertSegs, newNode, setParam, hv, TrieNode.ty, TrieNode.segment,
      TrieNode.children, TrieNode.handler, TrieNode.paramName, optTerminal]
  | cons p ps ih =>
    intro ty sg pn opt params
    rw [List.map_cons, List.cons_append, insertSegs_leaf,
      show (newNode (statSeg p) : TrieNode Nat) = .mk .STATIC p "" false [] none from rfl]
    have hty : (insertSegs (TrieNode.mk NodeType.STATIC p "" false [] none)
        (ps.map statSeg ++ [⟨.PARAM, name, true⟩]) hid).ty = .STATIC := by
      rw [insertSegs_ty]; rfl
    have hsg : (insertSegs (TrieNode.mk NodeType.STATIC p "" false [] none)
        (ps.map statSeg ++ [⟨.PARAM, name, true⟩]) hid).segment = p := by
      rw [insertSegs_segment]; rfl
    constructor
    · rw [List.cons_append]
      simp only [searchT, TrieNode.children, List.foldr, hty, hsg, eq_self_iff_true,
        if_true, Bool.or_false]
      rw [(ih .STATIC p "" false params).1]
    · intro _
      cases ps with
      | nil =>
        rw [List.map_nil, List.nil_append, insertSegs_leaf,
          show (newNode (⟨.PARAM, name, true⟩ : PatSeg) : TrieNode Nat)
            = .mk .PARAM "" name true [] none from rfl]
        simp [searchT, optTerminal, insertSegs, TrieNode.ty, TrieNode.segment,
          TrieNode.children, TrieNode.handler, TrieNode.optional]
      | cons q ps2 =>
        have hch := (ih .STATIC p "" false params).2 (by simp)
        generalize hqs : q :: ps2 = qs at hty hsg hch ⊢
        simp only [searchT, TrieNode.children, List.foldr, hty, hsg, eq_self_iff_true,
          if_true, Bool.or_false]
        rw [hch]

/-! ### The first segment of a split path or pattern is never empty
(stripping removed every leading slash), so only `"/"` and `""` split to
`[""]`. -/

theorem splitOnSlash_ne_nil : ∀ cs : List Char, splitOnSlash cs ≠ []
  | [] => by simp [splitOnSlash]
  | c :: cs => by
    simp only [splitOnSlash]
    cases h : splitOnSlash cs with
    | nil => simp
    | cons s ss => by_cases hc : c = '/' <;> simp [hc]

theorem stripSlashes_head_ne (cs : List Char) (c : Char)
    (h : (stripSlashes cs).head? = some c) : ¬(c = '/') := by
  have hrd : stripSlashes cs
      = List.rdropWhile (fun x => decide (x = '/')) (cs.dropWhile (fun x => decide (x = '/'))) := by
    rfl
  obtain ⟨r, hr⟩ := List.rdropWhile_prefix (fun x => decide (x = '/'))
    (cs.dropWhile (fun x => decide (x = '/')))
  rw [hrd] at h
  cases hsp : List.rdropWhile (fun x => decide (x = '/'))
      (cs.dropWhile (fun x => decide (x = '/'))) with
  | nil => rw [hsp] at h; exact absurd h (by simp)
  | cons w t =>
    rw [hsp] at h hr
    have hw : w = c := by
      simpa using h
    have hu : (cs.dropWhile (fun x => decide (x = '/'))).head? = some c := by
      rw [← hr, hw]
      rfl
    have := List.head?_dropWhile_not (fun x => decide (x = '/')) cs
    rw [hu] at this
    simpa using this

theorem pathSegs_first_empty (s : String) (ws : List String)
    (h : pathSegs s = "" :: ws) : ws = [] := by
  cases hstr : stripSlashes s.data with
  | nil =>
    simp only [pathSegs, hstr, splitOnSlash, List.map] at h
    rw [List.cons.injEq] at h
    exact h.2.symm
  | cons c cs2 =>
    have hc : ¬(c = '/') := stripSlashes_head_ne s.data c (by rw [hstr]; rfl)
    cases hsp : splitOnSlash cs2 with
    | nil => exact absurd hsp (splitOnSlash_ne_nil cs2)
    | cons s0 ss0 =>
      simp only [pathSegs, hstr, splitOnSlash, hsp, if_neg hc, List.map] at h
      rw [List.cons.injEq] at h
      exact absurd (congrArg String.data h.1) (by simp)

theorem parsePattern_no_empty_static_head (pat : String) (b : Bool) (rest : List PatSeg)
    (h : parsePattern pat = ⟨.STATIC, "", b⟩ :: rest) : False := by
  by_cases hn : stripSlashes pat.data = []
  · simp [parsePattern, hn] at h
  · cases hstr : stripSlashes pat.data with
    | nil => exact absurd hstr hn
    | cons c cs2 =>
      have hc : ¬(c = '/') := stripSlashes_head_ne pat.data c (by rw [hstr]; rfl)
      cases hsp : splitOnSlash cs2 with
      | nil => exact absurd hsp (splitOnSlash_ne_nil cs2)
      | cons s0 ss0 =>
        simp only [parsePattern, hstr, splitOnSlash, hsp, if_neg hc] at h
        rw [if_neg (by simp : ¬(c :: cs2 = []))] at h
        simp only [parseParts] at h
        by_cases hw : (c :: s0) = ['*']
        · simp [hw] at h
        · by_cases hcol : (c :: s0).head? = some ':'
          · simp [hw, hcol] at h
          · simp only [if_neg hw, if_neg hcol] at h
            rw [List.cons.injEq, PatSeg.mk.injEq] at h
            exact absurd (congrArg String.data h.1.2.1) (by simp)

/-- C7: for a registered optional-parameter route whose pattern parses to
static segments `ps` followed by `:name?`, a request whose path splits to
`ps ++ [v]` matches with `name` bound to `v`, and a request whose path
splits to just `ps` matches the same route with `name` absent from the
parameter map — both run the same handler. -/
theorem c7_optional_param (pat : String) (ps : List String) (name : String) (hid : Nat)
    (path1 path2 v : String) (dec : String → Option String)
    (hpat : parsePattern pat = ps.map statSeg ++ [⟨.PARAM, name, true⟩])
    (hps : ps ≠ [])
    (hp1 : pathSegs path1 = ps ++ [v])
    (hp2 : pathSegs path2 = ps)
    (hv : hasPercent v = false) :
    matchRoute dec (buildTrie [(pat, hid)]) path1 = some (hid, [(name, v)])
    ∧ matchRoute dec (buildTrie [(pat, hid)]) path2 = some (hid, []) := by
  have hbt : buildTrie [(pat, hid)]
      = insertSegs (TrieNode.mk .STATIC "" "" false [] none)
        (ps.map statSeg ++ [⟨.PARAM, name, true⟩]) hid := by
    show insertRoute createTrieRoot pat hid = _
    rw [insertRoute, hpat]
    rfl
  obtain ⟨p0, ps0⟩ : ∃ p0 ps0, ps = p0 :: ps0 := by
    cases ps with
    | nil => exact absurd rfl hps
    | cons a as => exact ⟨a, as, rfl⟩
  obtain ⟨ps0, hps0⟩ := ps0
  have hroot1 : ¬(path1 = "/" ∨ path1 = "") := by
    rintro (hh | hh) <;> rw [hh] at hp1 <;>
      [rw [show pathSegs "/" = [""] from rfl] at hp1;
       rw [show pathSegs "" = [""] from rfl] at hp1] <;>
      · have := congrArg List.length hp1
        rw [hps0] at this
        simp at this
  have hroot2 : ¬(path2 = "/" ∨ path2 = "") := by
    rintro (hh | hh) <;> rw [hh] at hp2 <;>
      [rw [show pathSegs "/" = [""] from rfl] at hp2;
       rw [show pathSegs "" = [""] from rfl] at hp2] <;>
      · rw [hps0] at hp2
        rw [List.cons.injEq] at hp2
        rw [hps0, ← hp2.1] at hpat
        exact parsePattern_no_empty_static_head pat false
          (ps0.map statSeg ++ [⟨.PARAM, name, true⟩]) (by simpa using hpat)
  constructor
  · rw [matchRoute, if_neg hroot1, hp1, hbt,
      (chain_matchStatic_none name hid v ps .STATIC "" "" false).1,
      (chain_searchT name hid v hv ps .STATIC "" "" false []).1]
    simp [setParam]
  · rw [matchRoute, if_neg hroot2, hp2, hbt,
      (chain_matchStatic_none name hid v ps .STATIC "" "" false).2,
      (chain_searchT name hid v hv ps .STATIC "" "" false []).2 hps]
    rfl

/-! ### Generic lemmas for the static-priority claim: `find?` against
`replaceFirst` and against the stable type sort. -/

theorem find?_replaceFirst_eq {β : Type} (p : β → Bool) (f : β → β)
    (hf : ∀ c, p c = true → p (f c) = true) :
    ∀ l : List β, (replaceFirst p f l).find? p = (l.find? p).map f := by
  intro l
  induction l with
  | nil => rfl
  | cons c cs ih =>
    by_cases hc : p c
    · simp [replaceFirst, hc, List.find?, hf c hc]
    · simp [replaceFirst, hc, List.find?, ih]

theorem find?_replaceFirst_disj {β : Type} (p q : β → Bool) (f : β → β)
    (hdisj : ∀ c, q c = true → p c = false) (hdf : ∀ c, q c = true → p (f c) = false) :
    ∀ l : List β, (replaceFirst q f l).find? p = l.find? p := by
  intro l
  induction l with
  | nil => rfl
  | cons c cs ih =>
    by_cases hc : q c
    · simp [replaceFirst, hc, List.find?, hdisj c hc, hdf c hc]
    · by_cases hpc : p c
      · simp [replaceFirst, hc, List.find?, hpc]
      · simp [replaceFirst, hc, List.find?, hpc, ih]

theorem find?_filter_of_imp {β : Type} (p q : β → Bool)
    (himp : ∀ c, p c = true → q c = true) :
    ∀ l : List β, (l.filter q).find? p = l.find? p := by
  intro l
  induction l with
  | nil => rfl
  | cons c cs ih =>
    by_cases hq : q c
    · by_cases hp : p c <;> simp [List.filter, hq, List.find?, hp, ih]
    · have hp : p c = false := by
        cases hpc : p c with
        | false => rfl
        | true => exact absurd (himp c hpc) (by simpa using hq)
      simp [List.filter, hq, List.find?, hp, ih]

/-- A STATIC node is inserted right at the front by the stable type sort. -/
theorem insSorted_static {α : Type} (c : TrieNode α) (hty : c.ty = .STATIC) :
    ∀ l : List (TrieNode α), insSorted c l = c :: l := by
  intro l
  cases l with
  | nil => rfl
  | cons d ds =>
    simp [insSorted, hty, NodeType.rank]

/-- Inserting a non-STATIC node does not disturb the STATIC sublist. -/
theorem filter_static_insSorted_nonstatic {α : Type} (c : TrieNode α)
    (hty : ¬(c.ty = .STATIC)) :
    ∀ l : List (TrieNode α), (insSorted c l).filter isStaticNode = l.filter isStaticNode := by
  intro l
  induction l with
  | nil => simp [insSorted, List.filter, isStaticNode, hty]
  | cons d ds ih =>
    by_cases hlt : d.ty.rank < c.ty.rank
    · simp only [insSorted, if_pos hlt]
      by_cases hd : isStaticNode d <;> simp [List.filter, hd, ih]
    · simp only [insSorted, if_neg hlt]
      simp [List.filter, isStaticNode, hty]

/-- The stable type sort preserves the STATIC sublist (in order). -/
theorem filter_static_sortByType {α : Type} :
    ∀ l : List (TrieNode α), (sortByType l).filter isStaticNode = l.filter isStaticNode := by
  intro l
  induction l with
  | nil => rfl
  | cons c cs ih =>
    by_cases hc : c.ty = .STATIC
    · rw [sortByType, insSorted_static c hc]
      simp [List.filter, isStaticNode, hc, ih]
    · rw [sortByType, filter_static_insSorted_nonstatic c hc]
      simp [List.filter, isStaticNode, hc, ih]

/-- `matchStatic`'s child lookup is blind to the type sort. -/
theorem findStaticChild_sortByType {α : Type} (l : List (TrieNode α)) (s : String) :
    findStaticChild (sortByType l) s = findStaticChild l s := by
  rw [findStaticChild, findStaticChild,
    ← find?_filter_of_imp _ isStaticNode (fun c hc => by
      simp only [Bool.and_eq_true, decide_eq_true_eq] at hc
      simp [isStaticNode, hc.1]) (sortByType l),
    ← find?_filter_of_imp _ isStaticNode (fun c hc => by
      simp only [Bool.and_eq_true, decide_eq_true_eq] at hc
      simp [isStaticNode, hc.1]) l,
    filter_static_sortByType]

/-- A freshly created subtree is invisible to the static fast path (no
handler sits on it yet from `matchStatic`'s point of view at its root). -/
theorem matchStatic_newNode_none {α : Type} (psg : PatSeg) (ss : List String) :
    matchStatic (newNode psg : TrieNode α) ss = none := by
  cases ss <;>
    simp [matchStatic, newNode, TrieNode.handler, TrieNode.children, findStaticChild,
      List.find?]

/-- The effect of one insertion on the static fast path: walking the literal
segments `ss` afterwards finds the new handler exactly when the inserted
pattern keys to the all-STATIC chain `ss`, and is otherwise unchanged —
whatever the trie held before. -/
theorem matchStatic_insertSegs {α : Type} :
    ∀ (ss : List String) (t : TrieNode α) (segs : List PatSeg) (h2 : α),
      matchStatic (insertSegs t segs h2) ss
        = if segs.map segKey = ss.map (fun s => (NodeType.STATIC, s)) then some h2
          else matchStatic t ss := by
  intro ss
  induction ss with
  | nil =>
    intro t segs h2
    obtain ⟨ty, sg, pn, opt, cs, h⟩ := t
    cases segs with
    | nil => simp [insertSegs, matchStatic, TrieNode.handler]
    | cons psg rest => simp [insertSegs, matchStatic, TrieNode.handler]
  | cons s ss ih =>
    intro t segs h2
    obtain ⟨ty, sg, pn, opt, cs, h⟩ := t
    cases segs with
    | nil =>
      simp [insertSegs, matchStatic, TrieNode.children]
    | cons psg rest =>
      rw [show insertSegs (TrieNode.mk ty sg pn opt cs h) (psg :: rest) h2
          = TrieNode.mk ty sg pn opt
            (if cs.any (segMatches psg) then
              replaceFirst (segMatches psg) (fun c => insertSegs c rest h2) cs
            else sortByType (cs ++ [insertSegs (newNode psg) rest h2])) h from rfl]
      rw [show ∀ ch : List (TrieNode α), matchStatic (TrieNode.mk ty sg pn opt ch h) (s :: ss)
          = (match findStaticChild ch s with
            | some c => matchStatic c ss
            | none => none) from fun ch => rfl]
      rw [show matchStatic (TrieNode.mk ty sg pn opt cs h) (s :: ss)
          = (match findStaticChild cs s with
            | some c => matchStatic c ss
            | none => none) from rfl]
      by_cases hkey : segKey psg = (NodeType.STATIC, s)
      · have hty : psg.ty = NodeType.STATIC := congrArg Prod.fst hkey
        have hsg : psg.segment = s := congrArg Prod.snd hkey
        have hfun : segMatches psg
            = (fun c : TrieNode α => decide (c.ty = NodeType.STATIC) && decide (c.segment = s)) := by
          funext c
          simp [segMatches, hty, hsg]
        have hcond : ((psg :: rest).map segKey = (s :: ss).map (fun s => (NodeType.STATIC, s)))
            ↔ (rest.map segKey = ss.map (fun s => (NodeType.STATIC, s))) := by
          simp [hkey]
        rw [if_congr hcond rfl rfl]
        by_cases hany : cs.any (segMatches psg)
        · rw [if_pos hany, findStaticChild, findStaticChild, hfun,
            find?_replaceFirst_eq _ _ (fun c hc => by
              simp only [Bool.and_eq_true, decide_eq_true_eq] at hc
              simp [insertSegs_ty, insertSegs_segment, hc.1, hc.2])]
          cases hfind : List.find?
              (fun c : TrieNode α => decide (c.ty = NodeType.STATIC) && decide (c.segment = s))
              cs with
          | none =>
            rw [hfun] at hany
            rw [List.any_eq_true] at hany
            obtain ⟨c, hmem, hc⟩ := hany
            exact absurd hc (by simpa using List.find?_eq_none.mp hfind c hmem)
          | some c =>
            show matchStatic (insertSegs c rest h2) ss
              = if rest.map segKey = ss.map (fun s => (NodeType.STATIC, s)) then some h2
                else matchStatic c ss
            exact ih c rest h2
        · rw [if_neg hany, findStaticChild_sortByType, findStaticChild, findStaticChild,
            List.find?_append]
          have hnone : List.find?
              (fun c : TrieNode α => decide (c.ty = NodeType.STATIC) && decide (c.segment = s))
              cs = none := by
            rw [List.find?_eq_none]
            intro x hx
            have hthis := List.any_eq_false.mp (by simpa using hany) x hx
            rw [hfun] at hthis
            simp at hthis ⊢
            exact hthis
          have hfr : (decide ((insertSegs (newNode psg : TrieNode α) rest h2).ty
                = NodeType.STATIC)
              && decide ((insertSegs (newNode psg : TrieNode α) rest h2).segment = s))
              = true := by
            have h1 : (insertSegs (newNode psg : TrieNode α) rest h2).ty = NodeType.STATIC := by
              rw [insertSegs_ty, show (newNode psg : TrieNode α).ty = psg.ty from rfl, hty]
            have h2s : (insertSegs (newNode psg : TrieNode α) rest h2).segment = s := by
              rw [insertSegs_segment,
                show (newNode psg : TrieNode α).segment
                  = (if psg.ty = NodeType.STATIC then psg.segment else "") from rfl,
                if_pos hty, hsg]
            simp [h1, h2s]
          rw [hnone]
          rw [show List.find?
              (fun c : TrieNode α => decide (c.ty = NodeType.STATIC) && decide (c.segment = s))
              [insertSegs (newNode psg) rest h2] = some (insertSegs (newNode psg) rest h2) by
            simp [List.find?, hfr]]
          show matchStatic (insertSegs (newNode psg : TrieNode α) rest h2) ss
            = if rest.map segKey = ss.map (fun s => (NodeType.STATIC, s)) then some h2
              else none
          rw [ih (newNode psg) rest h2, matchStatic_newNode_none]
      · have hcondf : ¬((psg :: rest).map segKey
            = (s :: ss).map (fun s => (NodeType.STATIC, s))) := by
          intro hh
          simp only [List.map_cons, List.cons.injEq] at hh
          exact hkey hh.1
        rw [if_neg hcondf]
        have hdisj : ∀ c : TrieNode α, segMatches psg c = true →
            (decide (c.ty = NodeType.STATIC) && decide (c.segment = s)) = false := by
          intro c hc
          by_cases hty : psg.ty = NodeType.STATIC
          · simp only [segMatches, hty, if_pos, Bool.and_eq_true, decide_eq_true_eq] at hc
            have hne : psg.segment ≠ s := by
              intro hh
              exact hkey (by rw [segKey, hty, hh])
            rw [hc.2] at *
            simp [hne]
          · simp only [segMatches, hty, if_neg, Bool.and_eq_true, decide_eq_true_eq] at hc
            have hcty : ¬(c.ty = NodeType.STATIC) := by
              rw [hc.1]
              exact hty
            simp [hcty]
        have hdf : ∀ c : TrieNode α, segMatches psg c = true →
            (decide ((insertSegs c rest h2).ty = NodeType.STATIC)
              && decide ((insertSegs c rest h2).segment = s)) = false := by
          intro c hc
          have := hdisj c hc
          simpa [insertSegs_ty, insertSegs_segment] using this
        by_cases hany : cs.any (segMatches psg)
        · rw [if_pos hany, findStaticChild, findStaticChild,
            find?_replaceFirst_disj _ (segMatches psg) _ hdisj hdf]
        · rw [if_neg hany, findStaticChild_sortByType, findStaticChild, findStaticChild,
            List.find?_append]
          have hfr : (decide ((insertSegs (newNode psg : TrieNode α) rest h2).ty
                = NodeType.STATIC)
              && decide ((insertSegs (newNode psg : TrieNode α) rest h2).segment = s))
              = false := by
            by_cases hty : psg.ty = NodeType.STATIC
            · have h2s : (insertSegs (newNode psg : TrieNode α) rest h2).segment
                  = psg.segment := by
                rw [insertSegs_segment,
                  show (newNode psg : TrieNode α).segment
                    = (if psg.ty = NodeType.STATIC then psg.segment else "") from rfl,
                  if_pos hty]
              have hne : psg.segment ≠ s := by
                intro hh
                exact hkey (by rw [segKey, hty, hh])
              simp [h2s, hne]
            · have h1 : (insertSegs (newNode psg : TrieNode α) rest h2).ty = psg.ty := by
                rw [insertSegs_ty]
                rfl
              simp [h1, hty]
          rw [show List.find?
              (fun c : TrieNode α => decide (c.ty = NodeType.STATIC) && decide (c.segment = s))
              [insertSegs (newNode psg) rest h2] = none by
            simp [List.find?, hfr]]
          rw [Option.or_none]

/-- `parsePattern` marks no STATIC segment optional (only a PARAM's trailing
`?` sets the flag). -/
theorem parseParts_static_optional_false :
    ∀ (parts : List (List Char)) (sg : PatSeg), sg ∈ parseParts parts →
      sg.ty = .STATIC → sg.optional = false := by
  intro parts
  induction parts with
  | nil => intro sg hsg; simp [parseParts] at hsg
  | cons part rest ih =>
    intro sg hsg hty
    by_cases hw : part = ['*']
    · simp [parseParts, hw] at hsg
      rw [hsg] at hty
      simp at hty
    · by_cases hcol : part.head? = some ':'
      · simp only [parseParts, if_neg hw, if_pos hcol, List.mem_cons] at hsg
        rcases hsg with hsg | hsg
        · rw [hsg] at hty; simp at hty
        · exact ih sg hsg hty
      · simp only [parseParts, if_neg hw, if_neg hcol, List.mem_cons] at hsg
        rcases hsg with hsg | hsg
        · rw [hsg]
        · exact ih sg hsg hty

theorem parsePattern_static_optional_false (pat : String) (sg : PatSeg)
    (hsg : sg ∈ parsePattern pat) (hty : sg.ty = .STATIC) : sg.optional = false := by
  by_cases hn : stripSlashes pat.data = []
  · simp [parsePattern, hn] at hsg
  · simp only [parsePattern, if_neg hn] at hsg
    exact parseParts_static_optional_false _ sg hsg hty

/-- Matching child keys pin the parsed segments down to the all-STATIC chain
once STATIC segments are known non-optional. -/
theorem keys_to_statSegs :
    ∀ (sgs : List PatSeg) (ss : List String),
      sgs.map segKey = ss.map (fun s => (NodeType.STATIC, s)) →
      (∀ sg ∈ sgs, sg.ty = .STATIC → sg.optional = false) →
      sgs = ss.map statSeg := by
  intro sgs
  induction sgs with
  | nil =>
    intro ss hk _
    cases ss with
    | nil => rfl
    | cons s ss => simp at hk
  | cons sg sgs ih =>
    intro ss hk hopt
    cases ss with
    | nil => simp at hk
    | cons s ss =>
      simp only [List.map_cons, List.cons.injEq] at hk
      have hty : sg.ty = NodeType.STATIC := congrArg Prod.fst hk.1
      have hsg : sg.segment = s := congrArg Prod.snd hk.1
      have hop : sg.optional = false := hopt sg (by simp) hty
      rw [List.map_cons]
      rw [show sg = statSeg s from by
        obtain ⟨a, b, c⟩ := sg
        simp only [statSeg]
        simp at hty hsg hop
        rw [hty, hsg, hop]]
      rw [ih ss hk.2 (fun sg2 hsg2 => hopt sg2 (by simp [hsg2]))]

/-- The static fast path over the whole registered route set: any request
path splitting exactly to a registered all-STATIC pattern finds that
pattern's handler, whatever else was registered and in whatever order. -/
theorem matchStatic_buildTrie (regs : List (String × Nat)) (p : String) (hid : Nat)
    (ss : List String)
    (hmem : (p, hid) ∈ regs)
    (hp : parsePattern p = ss.map statSeg)
    (hagree : ∀ r ∈ regs, parsePattern r.1 = ss.map statSeg → r.2 = hid) :
    matchStatic (buildTrie regs) ss = some hid := by
  obtain ⟨l1, l2, hsplit⟩ := List.append_of_mem hmem
  have hagree2 : ∀ r ∈ l2, parsePattern r.1 = ss.map statSeg → r.2 = hid := by
    intro r hr hpr
    exact hagree r (by rw [hsplit]; simp [hr]) hpr
  rw [hsplit, buildTrie, List.foldl_append, List.foldl_cons]
  have hstart : matchStatic
      (insertRoute (List.foldl (fun t r => insertRoute t r.1 r.2) createTrieRoot l1) p hid)
      ss = some hid := by
    rw [insertRoute, hp, matchStatic_insertSegs]
    rw [if_pos (by simp [segKey, statSeg])]
  generalize insertRoute (List.foldl (fun t r => insertRoute t r.1 r.2) createTrieRoot l1)
    p hid = t2 at hstart ⊢
  clear hmem hagree hsplit
  induction l2 generalizing t2 with
  | nil => simpa using hstart
  | cons r l ihl =>
    rw [List.foldl_cons]
    apply ihl (fun r2 hr2 => hagree2 r2 (by simp [hr2]))
    rw [insertRoute, matchStatic_insertSegs]
    by_cases hc : (parsePattern r.1).map segKey = ss.map (fun s => (NodeType.STATIC, s))
    · rw [if_pos hc]
      have heq : parsePattern r.1 = ss.map statSeg :=
        keys_to_statSegs _ _ hc (fun sg hsg => parsePattern_static_optional_false r.1 sg hsg)
      rw [hagree2 r (by simp) heq]
    · rw [if_neg hc]
      exact hstart

/-! ### The children of every node stay in STATIC-PARAM-WILDCARD order. -/

theorem ranksMono_insSorted {α : Type} (c : TrieNode α) :
    ∀ l : List (TrieNode α), ranksMono l = true → ranksMono (insSorted c l) = true
  | [] => by
    intro _
    simp [insSorted, ranksMono]
  | [d] => by
    intro _
    by_cases hlt : d.ty.rank < c.ty.rank
    · simp only [insSorted, if_pos hlt]
      simp [insSorted, ranksMono]
      omega
    · simp only [insSorted, if_neg hlt]
      simp [ranksMono]
      omega
  | d :: e :: l => by
    intro hm
    have hm1 : d.ty.rank ≤ e.ty.rank := by
      simp [ranksMono] at hm
      exact hm.1
    have hm2 : ranksMono (e :: l) = true := by
      simp [ranksMono] at hm ⊢
      exact hm.2
    by_cases h1 : d.ty.rank < c.ty.rank
    · rw [show insSorted c (d :: e :: l) = d :: insSorted c (e :: l) from by
        simp [insSorted, h1]]
      have hrec := ranksMono_insSorted c (e :: l) hm2
      by_cases h2 : e.ty.rank < c.ty.rank
      · rw [show insSorted c (e :: l) = e :: insSorted c l from by
          simp [insSorted, h2]] at hrec ⊢
        simp [ranksMono, hm1]
        simpa [ranksMono] using hrec
      · rw [show insSorted c (e :: l) = c :: e :: l from by
          simp [insSorted, h2]]
        have hdc : d.ty.rank ≤ c.ty.rank := by omega
        have hce : c.ty.rank ≤ e.ty.rank := by omega
        simp [ranksMono, hdc, hce]
        simpa [ranksMono] using hm2
    · rw [show insSorted c (d :: e :: l) = c :: d :: e :: l from by
        simp [insSorted, h1]]
      have hcd : c.ty.rank ≤ d.ty.rank := by omega
      simp [ranksMono, hcd, hm1]
      simpa [ranksMono] using hm2

theorem ranksMono_sortByType {α : Type} :
    ∀ l : List (TrieNode α), ranksMono (sortByType l) = true
  | [] => rfl
  | c :: cs => by
    rw [sortByType]
    exact ranksMono_insSorted c _ (ranksMono_sortByType cs)

theorem map_rank_replaceFirst {α : Type} (q : TrieNode α → Bool) (f : TrieNode α → TrieNode α)
    (hf : ∀ c, (f c).ty = c.ty) :
    ∀ l : List (TrieNode α),
      (replaceFirst q f l).map (fun c => c.ty.rank) = l.map (fun c => c.ty.rank) := by
  intro l
  induction l with
  | nil => rfl
  | cons c cs ih =>
    by_cases hq : q c
    · simp [replaceFirst, hq, hf c]
    · simp [replaceFirst, hq, ih]

theorem ranksMono_of_map_rank {α : Type} :
    ∀ (l1 l2 : List (TrieNode α)),
      l1.map (fun c => c.ty.rank) = l2.map (fun c => c.ty.rank) →
      ranksMono l1 = ranksMono l2
  | [], [], _ => rfl
  | [], _ :: _, h => by simp at h
  | _ :: _, [], h => by simp at h
  | [c], d :: l2, h => by
    cases l2 with
    | nil => rfl
    | cons e l2 => simp at h
  | c :: c2 :: l1, [d], h => by simp at h
  | c :: c2 :: l1, d :: d2 :: l2, h => by
    simp only [List.map_cons, List.cons.injEq] at h
    have hrec := ranksMono_of_map_rank (c2 :: l1) (d2 :: l2) (by simp [h.2.1, h.2.2])
    simp [ranksMono, h.1, h.2.1, hrec]

theorem mem_insSorted {α : Type} (x c : TrieNode α) :
    ∀ l : List (TrieNode α), x ∈ insSorted c l ↔ x = c ∨ x ∈ l := by
  intro l
  induction l with
  | nil => simp [insSorted]
  | cons d ds ih =>
    by_cases hlt : d.ty.rank < c.ty.rank
    · simp only [insSorted, if_pos hlt, List.mem_cons, ih]
      tauto
    · simp only [insSorted, if_neg hlt, List.mem_cons]

theorem mem_sortByType {α : Type} (x : TrieNode α) :
    ∀ l : List (TrieNode α), x ∈ sortByType l ↔ x ∈ l := by
  intro l
  induction l with
  | nil => simp [sortByType]
  | cons c cs ih => simp [sortByType, mem_insSorted, ih]

theorem mem_replaceFirst {β : Type} (q : β → Bool) (f : β → β) :
    ∀ (l : List β) (x : β), x ∈ replaceFirst q f l →
      x ∈ l ∨ ∃ c, c ∈ l ∧ q c = true ∧ x = f c := by
  intro l
  induction l with
  | nil => intro x hx; simp [replaceFirst] at hx
  | cons c cs ih =>
    intro x hx
    by_cases hq : q c
    · rw [replaceFirst, if_pos hq] at hx
      rcases List.mem_cons.mp hx with hx | hx
      · exact Or.inr ⟨c, by simp, hq, hx⟩
      · exact Or.inl (by simp [hx])
    · rw [replaceFirst, if_neg hq] at hx
      rcases List.mem_cons.mp hx with hx | hx
      · exact Or.inl (by simp [hx])
      · rcases ih x hx with hx | ⟨c0, hc0, hq0, hxe⟩
        · exact Or.inl (by simp [hx])
        · exact Or.inr ⟨c0, by simp [hc0], hq0, hxe⟩

/-- Route insertion keeps every node's children type-ordered. -/
theorem trieSorted_insertSegs {α : Type} :
    ∀ (segs : List PatSeg) (t : TrieNode α) (h2 : α),
      TrieSorted t → TrieSorted (insertSegs t segs h2)
  | [], t, h2, hs => by
    obtain ⟨ty, sg, pn, opt, cs, h⟩ := t
    cases hs with
    | mk _ hmono hkids =>
      exact TrieSorted.mk _ (by simpa [TrieNode.children, insertSegs] using hmono)
        (fun c hc => hkids c (by simpa [TrieNode.children, insertSegs] using hc))
  | psg :: rest, t, h2, hs => by
    obtain ⟨ty, sg, pn, opt, cs, h⟩ := t
    cases hs with
    | mk _ hmono hkids =>
      rw [show TrieNode.children (TrieNode.mk ty sg pn opt cs h) = cs from rfl] at hmono hkids
      refine TrieSorted.mk _ ?_ ?_
      · show ranksMono (if cs.any (segMatches psg) then
            replaceFirst (segMatches psg) (fun c => insertSegs c rest h2) cs
          else sortByType (cs ++ [insertSegs (newNode psg) rest h2])) = true
        by_cases hany : cs.any (segMatches psg)
        · rw [if_pos hany,
            ranksMono_of_map_rank _ cs
              (map_rank_replaceFirst _ _ (fun c => insertSegs_ty c rest h2) cs)]
          exact hmono
        · rw [if_neg hany]
          exact ranksMono_sortByType _
      · intro c hc
        rw [show TrieNode.children (insertSegs (TrieNode.mk ty sg pn opt cs h)
            (psg :: rest) h2)
          = (if cs.any (segMatches psg) then
              replaceFirst (segMatches psg) (fun c => insertSegs c rest h2) cs
            else sortByType (cs ++ [insertSegs (newNode psg) rest h2])) from rfl] at hc
        by_cases hany : cs.any (segMatches psg)
        · rw [if_pos hany] at hc
          rcases mem_replaceFirst _ _ cs c hc with hmem | ⟨c0, hc0, _, hceq⟩
          · exact hkids c hmem
          · rw [hceq]
            exact trieSorted_insertSegs rest c0 h2 (hkids c0 hc0)
        · rw [if_neg hany, mem_sortByType] at hc
          rcases List.mem_append.mp hc with hmem | hmem
          · exact hkids c hmem
          · rw [List.mem_singleton.mp hmem]
            refine trieSorted_insertSegs rest (newNode psg) h2 (TrieSorted.mk _ ?_ ?_)
            · rfl
            · intro c2 hc2
              simp [newNode, TrieNode.children] at hc2

/-- Every trie the router builds is type-ordered at every node. -/
theorem trieSorted_buildTrie {α : Type} (regs : List (String × α)) :
    TrieSorted (buildTrie regs) := by
  rw [buildTrie]
  have hroot : TrieSorted (createTrieRoot : TrieNode α) := by
    refine TrieSorted.mk _ rfl ?_
    intro c hc
    simp [createTrieRoot, TrieNode.children] at hc
  generalize (createTrieRoot : TrieNode α) = t at hroot ⊢
  induction regs generalizing t with
  | nil => simpa using hroot
  | cons r l ihl =>
    rw [List.foldl_cons]
    exact ihl _ (trieSorted_insertSegs _ t r.2 hroot)

/-- C1: for any registered route set, a request path splitting exactly to a
registered all-STATIC pattern resolves to that pattern's handler — whatever
else is registered and in whatever order (a conflicting param or wildcard
route can never shadow the static one) — and every node of the built trie
keeps its children in STATIC, PARAM, WILDCARD order, the order in which the
search tries them. -/
theorem c1_static_priority (regs : List (String × Nat)) (p : String) (hid : Nat)
    (ss : List String) (path : String) (dec : String → Option String)
    (hmem : (p, hid) ∈ regs)
    (hp : parsePattern p = ss.map statSeg)
    (hagree : ∀ r ∈ regs, parsePattern r.1 = ss.map statSeg → r.2 = hid)
    (hpath : pathSegs path = ss) :
    matchRoute dec (buildTrie regs) path = some (hid, [])
    ∧ TrieSorted (buildTrie regs) := by
  refine ⟨?_, trieSorted_buildTrie regs⟩
  have hroot : ¬(path = "/" ∨ path = "") := by
    rintro (hh | hh) <;> rw [hh] at hpath <;>
      [rw [show pathSegs "/" = [""] from rfl] at hpath;
       rw [show pathSegs "" = [""] from rfl] at hpath] <;>
      · rw [← hpath] at hp
        exact parsePattern_no_empty_static_head p false [] (by simpa using hp)
  rw [matchRoute, if_neg hroot, hpath,
    matchStatic_buildTrie regs p hid ss hmem hp hagree]

/-- C1 witness: registering `/users/:id` before `/users/new` and requesting
`/users/new` still selects the static handler, and the trie is type-ordered. -/
theorem c1_static_priority_witness :
    matchRoute decId (buildTrie [("/users/:id", 1), ("/users/new", 2)]) "/users/new"
      = some (2, [])
    ∧ TrieSorted (buildTrie [("/users/:id", 1), ("/users/new", 2)]) :=
  c1_static_priority [("/users/:id", 1), ("/users/new", 2)] "/users/new" 2
    ["users", "new"] "/users/new" decId (by decide) (by decide) (by decide) (by decide)

/-- C7 witness: route `/posts/:id?`; `/posts/123` matches with `id = "123"`,
`/posts` matches the same handler with no binding. -/
theorem c7_optional_param_witness :
    matchRoute decId (buildTrie [("/posts/:id?", 0)]) "/posts/123" = some (0, [("id", "123")])
    ∧ matchRoute decId (buildTrie [("/posts/:id?", 0)]) "/posts" = some (0, []) :=
  c7_optional_param "/posts/:id?" ["posts"] "id" 0 "/posts/123" "/posts" "123" decId
    (by decide) (by decide) (by decide) (by decide) (by decide)

end Snarl
